import Mathlib

/-!
# A verification development for `pdf_margin_analyzer.py`

Shallow embedding of the pure computational core of the analyzer:

* page geometry and bounding-box extraction (`get_bounding_box`),
* per-page margin collection with the inner/outer parity renaming
  (`calculate_margins`),
* per-key statistics over the non-NaN values (`statistics_margins`,
  `calculate_iqr`, numpy's linear-interpolation percentile),
* threshold flagging (`get_bad_cuts_with_margin`),
* the per-axis 2x2 crop solve (`calculate_margins_to_cut`).

Python floats are modelled by exact rationals; the float `NaN` is modelled
as `Option.none` (a value `Option ℚ` is `none` exactly when the Python value
is NaN).  Python dicts are modelled as insertion-ordered association lists,
which preserves the key-iteration order the code relies on.  Fallible
operations (dict indexing, numpy reductions over empty data, the
linear-algebra solve) return `Except PyError`, with one constructor per
library-level exception the source can actually raise.
-/

namespace PdfMarginAnalyzer

/-- The margin keys that appear in the analyzer's dictionaries. -/
inductive MKey
  | left | right | top | bottom | inner | outer
deriving DecidableEq, Repr

/-- A Python float that may be NaN: `none` models NaN, `some q` a finite
value (modelled exactly as a rational). -/
abbrev Val := Option ℚ

/-- A Python dict keyed by margin keys, as an insertion-ordered
association list (Python dicts iterate in insertion order). -/
abbrev MarginRecord := List (MKey × Val)

/-- The library-level exceptions the source code can raise:
`KeyError` from dict indexing, numpy's
`ValueError: zero-size array to reduction operation` from `np.min` on an
empty array, and `numpy.linalg.LinAlgError("Singular matrix")` from
`np.linalg.solve`.  The source defines no local exception classes. -/
inductive PyError
  | keyError
  | valueErrorZeroSize
  | linAlgSingular
deriving DecidableEq, Repr

/-- `d[k]` as a total lookup returning `none` when the key is absent
(the first binding wins, as in a dict where keys are unique). -/
def dictGet {α : Type} : List (MKey × α) → MKey → Option α
  | [], _ => none
  | (k', v) :: rest, k => if k' = k then some v else dictGet rest k

/-- One text block's rectangle `(x0, y0, x1, y1)` in page coordinates. -/
structure Rect where
  x0 : ℚ
  y0 : ℚ
  x1 : ℚ
  y1 : ℚ
deriving DecidableEq, Repr

/-- A page: its rectangle's dimensions and its list of text blocks
(`page.rect` and `page.get_text("blocks")` in the source). -/
structure Page where
  width : ℚ
  height : ℚ
  blocks : List Rect
deriving DecidableEq, Repr

/-- Python's `min` over a non-empty sequence, as the left fold the
built-in computes. -/
def pyFoldMin (x : ℚ) (xs : List ℚ) : ℚ := xs.foldl min x

/-- Python's `max` over a non-empty sequence, as the left fold the
built-in computes. -/
def pyFoldMax (x : ℚ) (xs : List ℚ) : ℚ := xs.foldl max x

/-- `get_bounding_box(page)`: all four fields NaN when the page has no
text blocks, otherwise the min/max block coordinates normalised by the
page dimensions.  The keys are inserted in the source's literal order
`left, top, right, bottom`. -/
def get_bounding_box (page : Page) : MarginRecord :=
  match page.blocks with
  | [] => [(.left, none), (.top, none), (.right, none), (.bottom, none)]
  | b :: bs =>
    let x0 := pyFoldMin b.x0 (bs.map Rect.x0)
    let y0 := pyFoldMin b.y0 (bs.map Rect.y0)
    let x1 := pyFoldMax b.x1 (bs.map Rect.x1)
    let y1 := pyFoldMax b.y1 (bs.map Rect.y1)
    [(.left, some (x0 / page.width)),
     (.top, some (y0 / page.height)),
     (.right, some ((page.width - x1) / page.width)),
     (.bottom, some ((page.height - y1) / page.height))]

/-- `d.pop(k)` for a key known to be present: the value (defaulting to
NaN when absent, which never happens at the call sites: `get_bounding_box`
always returns all four of `left, top, right, bottom`) and the dict with
the binding removed. -/
def dictPop (m : MarginRecord) (k : MKey) : Val × MarginRecord :=
  ((dictGet m k).getD none, m.filter (fun p => p.1 ≠ k))

/-- The inner/outer renaming applied to the bounding box of the page at
0-based document index `i`: `bbox["inner"] = bbox.pop("left")` then
`bbox["outer"] = bbox.pop("right")` when `(i+1) % 2 == 0`, and with
`left`/`right` swapped otherwise (a dict assignment of a fresh key
appends it in insertion order). -/
def renameInnerOuter (i : ℕ) (bbox : MarginRecord) : MarginRecord :=
  if (i + 1) % 2 = 0 then
    let p₁ := dictPop bbox .left
    let b₁ := p₁.2 ++ [(.inner, p₁.1)]
    let p₂ := dictPop b₁ .right
    p₂.2 ++ [(.outer, p₂.1)]
  else
    let p₁ := dictPop bbox .right
    let b₁ := p₁.2 ++ [(.inner, p₁.1)]
    let p₂ := dictPop b₁ .left
    p₂.2 ++ [(.outer, p₂.1)]

/-- The body of the `calculate_margins` loop for the page at document
index `i`: bounding box, then the parity renaming when `inner_outer`. -/
def processPage (inner_outer : Bool) (i : ℕ) (page : Page) : MarginRecord :=
  let bbox := get_bounding_box page
  if inner_outer then renameInnerOuter i bbox else bbox

/-- The `for i, page in enumerate(pages)` loop of `calculate_margins`,
carrying the running index: pages whose index is in the exception list
are skipped (`continue`), the rest append their processed record. -/
def calcMarginsAux (inner_outer : Bool) (exception_list : List ℕ) :
    ℕ → List Page → List MarginRecord
  | _, [] => []
  | i, page :: rest =>
    if i ∈ exception_list then calcMarginsAux inner_outer exception_list (i + 1) rest
    else processPage inner_outer i page :: calcMarginsAux inner_outer exception_list (i + 1) rest

/-- `calculate_margins(pages, exception_list, inner_outer)`. -/
def calculate_margins (pages : List Page) (exception_list : List ℕ)
    (inner_outer : Bool := false) : List MarginRecord :=
  calcMarginsAux inner_outer exception_list 0 pages

/-- `np.linalg.solve` on a 2x2 system `[[a00,a01],[a10,a11]] x = (b0,b1)`:
raises `LinAlgError("Singular matrix")` exactly when the determinant
vanishes (exact-arithmetic model of the LAPACK solve), otherwise the
Cramer solution. -/
def npSolve2 (a00 a01 a10 a11 b0 b1 : ℚ) : Except PyError (ℚ × ℚ) :=
  let det := a00 * a11 - a01 * a10
  if det = 0 then .error .linAlgSingular
  else .ok ((b0 * a11 - a01 * b1) / det, (a00 * b1 - a10 * b0) / det)

/-- The inner `solve_margin_to_cut(margin_keys)` of
`calculate_margins_to_cut`: reads the two observed and the two desired
fractions for the axis (a missing key is a `KeyError`), builds
`A = [[d0-1, d0], [d1, d1-1]]`, `B = (d0-m0, d1-m1)` and calls the
linear solve. -/
def solve_margin_to_cut (margins desired_margins : List (MKey × ℚ))
    (k0 k1 : MKey) : Except PyError (ℚ × ℚ) := do
  let m0 ← match dictGet margins k0 with
    | some v => Except.ok v
    | none => Except.error PyError.keyError
  let m1 ← match dictGet margins k1 with
    | some v => Except.ok v
    | none => Except.error PyError.keyError
  let d0 ← match dictGet desired_margins k0 with
    | some v => Except.ok v
    | none => Except.error PyError.keyError
  let d1 ← match dictGet desired_margins k1 with
    | some v => Except.ok v
    | none => Except.error PyError.keyError
  npSolve2 (d0 - 1) d0 d1 (d1 - 1) (d0 - m0) (d1 - m1)

/-- `calculate_margins_to_cut(margins, desired_margins)`: solve the width
axis (keys `left, right` when `"left" in margins`, else `inner, outer`),
then the height axis (`top, bottom`), and return the crop-fraction dict
in the source's insertion order. -/
def calculate_margins_to_cut (margins desired_margins : List (MKey × ℚ)) :
    Except PyError (List (MKey × ℚ)) := do
  let wk : MKey × MKey :=
    if (dictGet margins .left).isSome then (.left, .right) else (.inner, .outer)
  let xw ← solve_margin_to_cut margins desired_margins wk.1 wk.2
  let xh ← solve_margin_to_cut margins desired_margins .top .bottom
  pure [(wk.1, xw.1), (wk.2, xw.2), (.top, xh.1), (.bottom, xh.2)]

/-- Linear interpolation into the sorted value list `s` at fractional
index `h` (numpy's `linear` percentile method): with `i = ⌊h⌋`,
`s[i] + (h - i) * (s[i+1] - s[i])`, the upper sample clipped to the
lower one at the right end. -/
def interpAt (s : List ℚ) (h : ℚ) : ℚ :=
  let i := (⌊h⌋).toNat
  let lo := s.getD i 0
  let hi := s.getD (i + 1) lo
  lo + (h - (i : ℚ)) * (hi - lo)

/-- Numpy's linear-interpolation percentile on an already sorted list:
the fractional index is `q * (n - 1) / 100`. -/
def percentileSorted (s : List ℚ) (q : ℚ) : ℚ :=
  interpAt s (q * ((s.length : ℚ) - 1) / 100)

/-- `np.percentile(data, q)` (default `linear` interpolation): sort the
data, then interpolate at fractional index `q * (n - 1) / 100`. -/
def npPercentile (data : List ℚ) (q : ℚ) : ℚ :=
  percentileSorted (data.insertionSort (· ≤ ·)) q

/-- `np.median` on a sorted list: the middle value for odd length, the
mean of the two middle values for even length. -/
def medianSorted (s : List ℚ) : ℚ :=
  if s.length % 2 = 1 then s.getD (s.length / 2) 0
  else (s.getD (s.length / 2 - 1) 0 + s.getD (s.length / 2) 0) / 2

/-- `np.median(data)`. -/
def npMedian (data : List ℚ) : ℚ :=
  medianSorted (data.insertionSort (· ≤ ·))

/-- `calculate_iqr(data)`: `q75, q25 = np.percentile(data, [75, 25])`,
returning `q75 - q25`. -/
def calculate_iqr (data : List ℚ) : ℚ :=
  npPercentile data 75 - npPercentile data 25

/-- `margin[key]`: the value when present, `KeyError` otherwise. -/
def lookupOrKeyError (margin : MarginRecord) (key : MKey) : Except PyError Val :=
  match dictGet margin key with
  | some v => Except.ok v
  | none => Except.error PyError.keyError

/-- The comprehension
`[margin[key] for margin in margins if not np.isnan(margin[key])]`:
indexing a record that lacks the key raises `KeyError`; NaN values are
filtered out. -/
def collectValues (margins : List MarginRecord) (key : MKey) :
    Except PyError (List ℚ) := do
  let vals ← margins.mapM (fun margin => lookupOrKeyError margin key)
  pure (vals.filterMap id)

/-- The per-key statistics dict built by `statistics_margins`.  `np.std`
returns the square root of `sqStddev` (the population variance); the
square is kept so the field stays rational — the square root of a
rational is irrational in general, and `x ↦ √x` is injective on
nonnegatives, so nothing is lost. -/
structure MarginStats where
  min : ℚ
  max : ℚ
  mean : ℚ
  median : ℚ
  iqr : ℚ
  sqStddev : ℚ
deriving DecidableEq, Repr

/-- The statistics dict literal of `statistics_margins` for one key's
collected data: `np.min` on an empty array raises
`ValueError: zero-size array to reduction operation` before any other
entry is evaluated. -/
def computeStats (data : List ℚ) : Except PyError MarginStats :=
  match data with
  | [] => .error .valueErrorZeroSize
  | x :: xs =>
    let mean := (x :: xs).sum / ((x :: xs).length : ℚ)
    .ok
      { min := pyFoldMin x xs
        max := pyFoldMax x xs
        mean := mean
        median := npMedian (x :: xs)
        iqr := calculate_iqr (x :: xs)
        sqStddev := ((x :: xs).map (fun v => (v - mean) ^ 2)).sum / ((x :: xs).length : ℚ) }

/-- The statistics record `computeStats` builds for non-empty data
(the `[]` case is a dummy never produced: `computeStats` errors there). -/
def statsOfData (data : List ℚ) : MarginStats :=
  match data with
  | [] => { min := 0, max := 0, mean := 0, median := 0, iqr := 0, sqStddev := 0 }
  | x :: xs =>
    { min := pyFoldMin x xs
      max := pyFoldMax x xs
      mean := (x :: xs).sum / ((x :: xs).length : ℚ)
      median := npMedian (x :: xs)
      iqr := calculate_iqr (x :: xs)
      sqStddev := ((x :: xs).map
        (fun v => (v - (x :: xs).sum / ((x :: xs).length : ℚ)) ^ 2)).sum /
          ((x :: xs).length : ℚ) }

/-- `statistics_margins(margins)`: `None` for an empty list, otherwise
one statistics entry per key of the first record, in that record's key
order. -/
def statistics_margins (margins : List MarginRecord) :
    Except PyError (Option (List (MKey × MarginStats))) :=
  match margins with
  | [] => .ok none
  | first :: rest =>
    ((first.map Prod.fst).mapM (fun key => do
      let data ← collectValues (first :: rest) key
      let s ← computeStats data
      pure (key, s))).map some

/-- Python's `margin[key] < threshold`: `False` whenever the value is
NaN (every comparison with NaN is false). -/
def pyLt (v : Val) (t : ℚ) : Bool :=
  match v with
  | none => false
  | some x => decide (x < t)

/-- `bad_cuts[key].append(i)` on the accumulator dict: append to the
binding for `key`, leave every other binding unchanged. -/
def dictAppend (acc : List (MKey × List ℕ)) (key : MKey) (i : ℕ) :
    List (MKey × List ℕ) :=
  acc.map (fun p => if p.1 = key then (p.1, p.2 ++ [i]) else p)

/-- The inner `for key in margin` loop of `get_bad_cuts_with_margin`:
`margin_threshold[key]` raises `KeyError` when the record's key is
missing from the threshold dict; otherwise index `i` is appended to the
key's list when the value is strictly below the threshold. -/
def badCutsRecord (margin_threshold : List (MKey × ℚ)) (i : ℕ) :
    MarginRecord → List (MKey × List ℕ) → Except PyError (List (MKey × List ℕ))
  | [], acc => .ok acc
  | (key, v) :: rest, acc =>
    match dictGet margin_threshold key with
    | none => .error .keyError
    | some t =>
      badCutsRecord margin_threshold i rest
        (if pyLt v t then dictAppend acc key i else acc)

/-- The outer `for i, margin in enumerate(margins)` loop of
`get_bad_cuts_with_margin`. -/
def badCutsGo (margin_threshold : List (MKey × ℚ)) :
    ℕ → List MarginRecord → List (MKey × List ℕ) → Except PyError (List (MKey × List ℕ))
  | _, [], acc => .ok acc
  | i, margin :: rest, acc => do
    badCutsGo margin_threshold (i + 1) rest
      (← badCutsRecord margin_threshold i margin acc)

/-- `get_bad_cuts_with_margin(margins, margin_threshold)`: the result
dict starts as `{key: [] for key in margin_threshold}` and records every
0-based index whose value for a key is strictly below that key's
threshold. -/
def get_bad_cuts_with_margin (margins : List MarginRecord)
    (margin_threshold : List (MKey × ℚ)) : Except PyError (List (MKey × List ℕ)) :=
  badCutsGo margin_threshold 0 margins
    (margin_threshold.map (fun p => (p.1, ([] : List ℕ))))

/-- Spec-side description (named from the spec's words, to be compared
with the code): "the non-NaN values of that key across all records" —
every record's value at `key`, keeping only the present, non-NaN ones. -/
def nonNaNValues (margins : List MarginRecord) (key : MKey) : List ℚ :=
  margins.filterMap (fun margin => (dictGet margin key).bind id)

/-- Spec-side description: whether a record's value for `key` is
strictly below the threshold (a missing key or a NaN value is not). -/
def flaggedBySpec (margin : MarginRecord) (key : MKey) (t : ℚ) : Bool :=
  match dictGet margin key with
  | some v => pyLt v t
  | none => false

/-- Spec-side description: "the ordered list of 0-based indices within
the retained record sequence whose value for that key is strictly below
the threshold", indices counted from `i`. -/
def flaggedIndicesFrom (key : MKey) (t : ℚ) :
    ℕ → List MarginRecord → List ℕ
  | _, [] => []
  | i, margin :: rest =>
    (if flaggedBySpec margin key t then [i] else []) ++
      flaggedIndicesFrom key t (i + 1) rest

/-- Spec-side description of one key's flagged-index list, counted from
index 0. -/
def flaggedIndicesSpec (margins : List MarginRecord) (key : MKey) (t : ℚ) : List ℕ :=
  flaggedIndicesFrom key t 0 margins

/-- Whether one record causes its index to be appended for `k` during
the bad-cuts loop: `k` carries a value in the record, the threshold dict
knows `k`, and the value is strictly below the threshold. -/
def recordFlags (margin_threshold : List (MKey × ℚ)) (margin : MarginRecord)
    (k : MKey) : Bool :=
  match dictGet margin k, dictGet margin_threshold k with
  | some v, some t => pyLt v t
  | _, _ => false

/-- The indices (counted from `i`) of the records that flag key `k`
against the threshold dict. -/
def flagsFrom (margin_threshold : List (MKey × ℚ)) (k : MKey) :
    ℕ → List MarginRecord → List ℕ
  | _, [] => []
  | i, margin :: rest =>
    (if recordFlags margin_threshold margin k then [i] else []) ++
      flagsFrom margin_threshold k (i + 1) rest

/-! ## Helper lemmas: the crop solve -/

/-- Explicit Cramer form of `calculate_margins_to_cut` on a
`left/right/top/bottom` snapshot when both axis systems are
non-singular. -/
lemma calcCut_lr_eq (ml mr mt mb dl dr dt db : ℚ)
    (hdetW : (dl - 1) * (dr - 1) - dl * dr ≠ 0)
    (hdetH : (dt - 1) * (db - 1) - dt * db ≠ 0) :
    calculate_margins_to_cut [(.left, ml), (.right, mr), (.top, mt), (.bottom, mb)]
      [(.left, dl), (.right, dr), (.top, dt), (.bottom, db)] =
      .ok [(.left, ((dl - ml) * (dr - 1) - dl * (dr - mr)) / ((dl - 1) * (dr - 1) - dl * dr)),
           (.right, ((dl - 1) * (dr - mr) - dr * (dl - ml)) / ((dl - 1) * (dr - 1) - dl * dr)),
           (.top, ((dt - mt) * (db - 1) - dt * (db - mb)) / ((dt - 1) * (db - 1) - dt * db)),
           (.bottom, ((dt - 1) * (db - mb) - db * (dt - mt)) / ((dt - 1) * (db - 1) - dt * db))] := by
  simp [calculate_margins_to_cut, solve_margin_to_cut, dictGet, npSolve2, bind, Except.bind,
    Functor.map, Except.map, pure, Except.pure, hdetW, hdetH]

/-- Explicit Cramer form of `calculate_margins_to_cut` on an
`inner/outer/top/bottom` snapshot. -/
lemma calcCut_io_eq (ml mr mt mb dl dr dt db : ℚ)
    (hdetW : (dl - 1) * (dr - 1) - dl * dr ≠ 0)
    (hdetH : (dt - 1) * (db - 1) - dt * db ≠ 0) :
    calculate_margins_to_cut [(.inner, ml), (.outer, mr), (.top, mt), (.bottom, mb)]
      [(.inner, dl), (.outer, dr), (.top, dt), (.bottom, db)] =
      .ok [(.inner, ((dl - ml) * (dr - 1) - dl * (dr - mr)) / ((dl - 1) * (dr - 1) - dl * dr)),
           (.outer, ((dl - 1) * (dr - mr) - dr * (dl - ml)) / ((dl - 1) * (dr - 1) - dl * dr)),
           (.top, ((dt - mt) * (db - 1) - dt * (db - mb)) / ((dt - 1) * (db - 1) - dt * db)),
           (.bottom, ((dt - 1) * (db - mb) - db * (dt - mt)) / ((dt - 1) * (db - 1) - dt * db))] := by
  simp [calculate_margins_to_cut, solve_margin_to_cut, dictGet, npSolve2, bind, Except.bind,
    Functor.map, Except.map, pure, Except.pure, hdetW, hdetH]

/-- The Cramer solution of one axis's system puts the post-crop margins
at exactly the desired fractions, provided the observed margins do not
sum to the whole page (`m0 + m1 ≠ 1`, i.e. the crop does not remove the
entire axis). -/
lemma crop_eqs (m0 m1 d0 d1 : ℚ) (hdet : (d0 - 1) * (d1 - 1) - d0 * d1 ≠ 0)
    (hm : m0 + m1 ≠ 1) :
    ((m0 - ((d0 - m0) * (d1 - 1) - d0 * (d1 - m1)) / ((d0 - 1) * (d1 - 1) - d0 * d1)) /
      (1 - ((d0 - m0) * (d1 - 1) - d0 * (d1 - m1)) / ((d0 - 1) * (d1 - 1) - d0 * d1)
         - ((d0 - 1) * (d1 - m1) - d1 * (d0 - m0)) / ((d0 - 1) * (d1 - 1) - d0 * d1))) = d0 ∧
    ((m1 - ((d0 - 1) * (d1 - m1) - d1 * (d0 - m0)) / ((d0 - 1) * (d1 - 1) - d0 * d1)) /
      (1 - ((d0 - m0) * (d1 - 1) - d0 * (d1 - m1)) / ((d0 - 1) * (d1 - 1) - d0 * d1)
         - ((d0 - 1) * (d1 - m1) - d1 * (d0 - m0)) / ((d0 - 1) * (d1 - 1) - d0 * d1))) = d1 := by
  set det := (d0 - 1) * (d1 - 1) - d0 * d1 with hdetdef
  have hden : (1 : ℚ) - ((d0 - m0) * (d1 - 1) - d0 * (d1 - m1)) / det
      - ((d0 - 1) * (d1 - m1) - d1 * (d0 - m0)) / det = (1 - m0 - m1) / det := by
    field_simp
    ring
  have h1 : (1 : ℚ) - m0 - m1 ≠ 0 := by intro h; apply hm; linarith
  constructor
  · rw [hden, div_eq_iff (div_ne_zero h1 hdet)]
    field_simp
    ring
  · rw [hden, div_eq_iff (div_ne_zero h1 hdet)]
    field_simp
    ring

/-! ## Claims C1, C2, C3: the crop solver -/

/-- C1, counterexample to the claim as stated: with observed margins
`left = right = 1/2` and desired `left = right = 1/4` the width-axis
coefficient matrix is non-singular, yet the returned crop fractions are
`1/2` each — they remove the whole page width, so the post-crop margin
`(m0 - c0) / (1 - c0 - c1)` is `0/0` (NaN for floats) and not the
desired `1/4`. -/
theorem claim1_counterexample :
    ((1/4 - 1 : ℚ) * (1/4 - 1) - 1/4 * (1/4) ≠ 0) ∧
    calculate_margins_to_cut
        [(.left, 1/2), (.right, 1/2), (.top, 1/10), (.bottom, 1/10)]
        [(.left, 1/4), (.right, 1/4), (.top, 1/10), (.bottom, 1/10)] =
      .ok [(.left, 1/2), (.right, 1/2), (.top, 0), (.bottom, 0)] ∧
    ¬ (((1/2 : ℚ) - 1/2) / (1 - 1/2 - 1/2) = 1/4) := by
  refine ⟨by norm_num, ?_, by norm_num⟩
  rw [calcCut_lr_eq (1/2) (1/2) (1/10) (1/10) (1/4) (1/4) (1/10) (1/10)
    (by norm_num) (by norm_num)]
  norm_num

/-- C1 (amended): for every margin snapshot and desired mapping over
matching key pairs whose per-axis coefficient matrix is non-singular,
and whose observed margins on each axis do not sum to the whole page
(`m0 + m1 ≠ 1`), `calculate_margins_to_cut` returns crop fractions with
`(m0 - c0) / (1 - c0 - c1) = d0` and `(m1 - c1) / (1 - c0 - c1) = d1`
on each axis, for the `left/right` and `inner/outer` conventions
alike. -/
theorem claim1_crop_achieves_desired_margins (ml mr mt mb dl dr dt db : ℚ)
    (hdetW : (dl - 1) * (dr - 1) - dl * dr ≠ 0)
    (hdetH : (dt - 1) * (db - 1) - dt * db ≠ 0)
    (hmW : ml + mr ≠ 1) (hmH : mt + mb ≠ 1) :
    ∃ cl cr ct cb : ℚ,
      calculate_margins_to_cut
          [(.left, ml), (.right, mr), (.top, mt), (.bottom, mb)]
          [(.left, dl), (.right, dr), (.top, dt), (.bottom, db)] =
        .ok [(.left, cl), (.right, cr), (.top, ct), (.bottom, cb)] ∧
      calculate_margins_to_cut
          [(.inner, ml), (.outer, mr), (.top, mt), (.bottom, mb)]
          [(.inner, dl), (.outer, dr), (.top, dt), (.bottom, db)] =
        .ok [(.inner, cl), (.outer, cr), (.top, ct), (.bottom, cb)] ∧
      (ml - cl) / (1 - cl - cr) = dl ∧ (mr - cr) / (1 - cl - cr) = dr ∧
      (mt - ct) / (1 - ct - cb) = dt ∧ (mb - cb) / (1 - ct - cb) = db := by
  refine ⟨_, _, _, _, calcCut_lr_eq ml mr mt mb dl dr dt db hdetW hdetH,
    calcCut_io_eq ml mr mt mb dl dr dt db hdetW hdetH,
    (crop_eqs ml mr dl dr hdetW hmW).1, (crop_eqs ml mr dl dr hdetW hmW).2,
    (crop_eqs mt mb dt db hdetH hmH).1, (crop_eqs mt mb dt db hdetH hmH).2⟩

/-- Witness for C1 at the spec's own test point: observed margins
`left = right = 1/20`, desired `left = right = 1/10`, height margins
`1/10` with desired `1/10`. -/
theorem claim1_witness :
    (((1/10 : ℚ) - 1) * (1/10 - 1) - 1/10 * (1/10) ≠ 0) ∧
    (((1/10 : ℚ) - 1) * (1/10 - 1) - 1/10 * (1/10) ≠ 0) ∧
    ((1/20 : ℚ) + 1/20 ≠ 1) ∧ ((1/10 : ℚ) + 1/10 ≠ 1) ∧
    (∃ cl cr ct cb : ℚ,
      calculate_margins_to_cut
          [(.left, 1/20), (.right, 1/20), (.top, 1/10), (.bottom, 1/10)]
          [(.left, 1/10), (.right, 1/10), (.top, 1/10), (.bottom, 1/10)] =
        .ok [(.left, cl), (.right, cr), (.top, ct), (.bottom, cb)] ∧
      calculate_margins_to_cut
          [(.inner, 1/20), (.outer, 1/20), (.top, 1/10), (.bottom, 1/10)]
          [(.inner, 1/10), (.outer, 1/10), (.top, 1/10), (.bottom, 1/10)] =
        .ok [(.inner, cl), (.outer, cr), (.top, ct), (.bottom, cb)] ∧
      ((1/20 : ℚ) - cl) / (1 - cl - cr) = 1/10 ∧ ((1/20 : ℚ) - cr) / (1 - cl - cr) = 1/10 ∧
      ((1/10 : ℚ) - ct) / (1 - ct - cb) = 1/10 ∧ ((1/10 : ℚ) - cb) / (1 - ct - cb) = 1/10) :=
  ⟨by norm_num, by norm_num, by norm_num, by norm_num,
    claim1_crop_achieves_desired_margins (1/20) (1/20) (1/10) (1/10) (1/10) (1/10) (1/10) (1/10)
      (by norm_num) (by norm_num) (by norm_num) (by norm_num)⟩

/-- C2, counterexample to the claim as stated: the claim's "in
particular" singular instance `desired = {left: 1, right: 1}` is in fact
non-singular — the determinant `(d0-1)(d1-1) - d0·d1` equals `-1` there
— and `calculate_margins_to_cut` succeeds on it instead of failing with
any error at all. -/
theorem claim2_counterexample :
    (((1 : ℚ) - 1) * ((1 : ℚ) - 1) - 1 * 1 ≠ 0) ∧
    calculate_margins_to_cut
        [(.left, 1/10), (.right, 1/10), (.top, 1/10), (.bottom, 1/10)]
        [(.left, 1), (.right, 1), (.top, 1/10), (.bottom, 1/10)] =
      .ok [(.left, 9/10), (.right, 9/10), (.top, 0), (.bottom, 0)] := by
  refine ⟨by norm_num, ?_⟩
  rw [calcCut_lr_eq (1/10) (1/10) (1/10) (1/10) 1 1 (1/10) (1/10)
    (by norm_num) (by norm_num)]
  norm_num

/-- C2 (amended): an axis's system is singular exactly when its desired
margins sum to 1 (`det = (d0-1)(d1-1) - d0·d1 = 1 - d0 - d1`), not at
`d0 = d1 = 1`; on every singular instance `calculate_margins_to_cut`
fails by propagating the linear-algebra library's singular-matrix error
— the same error value for either axis and any desired pair, naming
neither — rather than returning NaN/garbage.  Both naming conventions
behave identically. -/
theorem claim2_singular_axis_raises_library_error (ml mr mt mb dl dr dt db : ℚ)
    (h : (dl - 1) * (dr - 1) - dl * dr = 0 ∨ (dt - 1) * (db - 1) - dt * db = 0) :
    calculate_margins_to_cut
        [(.left, ml), (.right, mr), (.top, mt), (.bottom, mb)]
        [(.left, dl), (.right, dr), (.top, dt), (.bottom, db)] =
      .error .linAlgSingular ∧
    calculate_margins_to_cut
        [(.inner, ml), (.outer, mr), (.top, mt), (.bottom, mb)]
        [(.inner, dl), (.outer, dr), (.top, dt), (.bottom, db)] =
      .error .linAlgSingular := by
  rcases h with h | h
  · constructor <;>
      simp [calculate_margins_to_cut, solve_margin_to_cut, dictGet, npSolve2, bind, Except.bind,
        Functor.map, Except.map, pure, Except.pure, h]
  · by_cases hW : (dl - 1) * (dr - 1) - dl * dr = 0 <;>
      constructor <;>
        simp [calculate_margins_to_cut, solve_margin_to_cut, dictGet, npSolve2, bind, Except.bind,
          Functor.map, Except.map, pure, Except.pure, h, hW]

/-- Witness for C2 at a genuinely singular pair: desired
`left = right = 1/2` (they sum to 1). -/
theorem claim2_witness :
    (((1/2 : ℚ) - 1) * (1/2 - 1) - 1/2 * (1/2) = 0 ∨
      ((1/10 : ℚ) - 1) * (1/10 - 1) - 1/10 * (1/10) = 0) ∧
    (calculate_margins_to_cut
        [(.left, 1/10), (.right, 1/10), (.top, 1/10), (.bottom, 1/10)]
        [(.left, 1/2), (.right, 1/2), (.top, 1/10), (.bottom, 1/10)] =
      .error .linAlgSingular ∧
    calculate_margins_to_cut
        [(.inner, 1/10), (.outer, 1/10), (.top, 1/10), (.bottom, 1/10)]
        [(.inner, 1/2), (.outer, 1/2), (.top, 1/10), (.bottom, 1/10)] =
      .error .linAlgSingular) :=
  ⟨Or.inl (by norm_num),
    claim2_singular_axis_raises_library_error (1/10) (1/10) (1/10) (1/10) (1/2) (1/2) (1/10) (1/10)
      (Or.inl (by norm_num))⟩

/-- C3: when the desired margins equal the observed snapshot and both
axis systems are non-singular, the solved crop fractions are exactly 0
(hence within any tolerance, in particular `1e-9`), for both naming
conventions. -/
theorem claim3_round_trip_zero_cut (ml mr mt mb : ℚ)
    (hdetW : (ml - 1) * (mr - 1) - ml * mr ≠ 0)
    (hdetH : (mt - 1) * (mb - 1) - mt * mb ≠ 0) :
    calculate_margins_to_cut [(.left, ml), (.right, mr), (.top, mt), (.bottom, mb)]
        [(.left, ml), (.right, mr), (.top, mt), (.bottom, mb)] =
      .ok [(.left, 0), (.right, 0), (.top, 0), (.bottom, 0)] ∧
    calculate_margins_to_cut [(.inner, ml), (.outer, mr), (.top, mt), (.bottom, mb)]
        [(.inner, ml), (.outer, mr), (.top, mt), (.bottom, mb)] =
      .ok [(.inner, 0), (.outer, 0), (.top, 0), (.bottom, 0)] := by
  constructor
  · rw [calcCut_lr_eq ml mr mt mb ml mr mt mb hdetW hdetH]
    norm_num
  · rw [calcCut_io_eq ml mr mt mb ml mr mt mb hdetW hdetH]
    norm_num

/-- Witness for C3 at the spec's test point
`margins = {left: 0.10, right: 0.10, top: 0.12, bottom: 0.12}`. -/
theorem claim3_witness :
    (((1/10 : ℚ) - 1) * (1/10 - 1) - 1/10 * (1/10) ≠ 0) ∧
    (((3/25 : ℚ) - 1) * (3/25 - 1) - 3/25 * (3/25) ≠ 0) ∧
    (calculate_margins_to_cut
        [(.left, 1/10), (.right, 1/10), (.top, 3/25), (.bottom, 3/25)]
        [(.left, 1/10), (.right, 1/10), (.top, 3/25), (.bottom, 3/25)] =
      .ok [(.left, 0), (.right, 0), (.top, 0), (.bottom, 0)] ∧
    calculate_margins_to_cut
        [(.inner, 1/10), (.outer, 1/10), (.top, 3/25), (.bottom, 3/25)]
        [(.inner, 1/10), (.outer, 1/10), (.top, 3/25), (.bottom, 3/25)] =
      .ok [(.inner, 0), (.outer, 0), (.top, 0), (.bottom, 0)]) :=
  ⟨by norm_num, by norm_num,
    claim3_round_trip_zero_cut (1/10) (1/10) (3/25) (3/25) (by norm_num) (by norm_num)⟩

/-! ## Helper lemmas: Python min/max folds -/

lemma pyFoldMin_mem (x : ℚ) (xs : List ℚ) : pyFoldMin x xs ∈ x :: xs := by
  induction xs generalizing x with
  | nil => simp [pyFoldMin]
  | cons y ys ih =>
    have h := ih (min x y)
    rcases List.mem_cons.mp h with h' | h'
    · rcases min_choice x y with hc | hc <;>
        simp only [pyFoldMin, List.foldl_cons] at * <;> rw [h', hc] <;> simp
    · simp only [pyFoldMin, List.foldl_cons] at *
      exact List.mem_cons.mpr (Or.inr (List.mem_cons.mpr (Or.inr h')))

lemma pyFoldMin_le (x : ℚ) (xs : List ℚ) : ∀ y ∈ x :: xs, pyFoldMin x xs ≤ y := by
  induction xs generalizing x with
  | nil => simp [pyFoldMin]
  | cons z zs ih =>
    intro y hy
    have h := ih (min x z)
    simp only [pyFoldMin, List.foldl_cons] at *
    rcases List.mem_cons.mp hy with rfl | hy'
    · exact le_trans (h _ (List.mem_cons_self _ _)) (min_le_left _ _)
    · rcases List.mem_cons.mp hy' with rfl | hy'
      · exact le_trans (h _ (List.mem_cons_self _ _)) (min_le_right _ _)
      · exact h _ (List.mem_cons.mpr (Or.inr hy'))

lemma pyFoldMax_mem (x : ℚ) (xs : List ℚ) : pyFoldMax x xs ∈ x :: xs := by
  induction xs generalizing x with
  | nil => simp [pyFoldMax]
  | cons y ys ih =>
    have h := ih (max x y)
    rcases List.mem_cons.mp h with h' | h'
    · rcases max_choice x y with hc | hc <;>
        simp only [pyFoldMax, List.foldl_cons] at * <;> rw [h', hc] <;> simp
    · simp only [pyFoldMax, List.foldl_cons] at *
      exact List.mem_cons.mpr (Or.inr (List.mem_cons.mpr (Or.inr h')))

lemma pyFoldMax_ge (x : ℚ) (xs : List ℚ) : ∀ y ∈ x :: xs, y ≤ pyFoldMax x xs := by
  induction xs generalizing x with
  | nil => simp [pyFoldMax]
  | cons z zs ih =>
    intro y hy
    have h := ih (max x z)
    simp only [pyFoldMax, List.foldl_cons] at *
    rcases List.mem_cons.mp hy with rfl | hy'
    · exact le_trans (le_max_left _ _) (h _ (List.mem_cons_self _ _))
    · rcases List.mem_cons.mp hy' with rfl | hy'
      · exact le_trans (le_max_right _ _) (h _ (List.mem_cons_self _ _))
      · exact h _ (List.mem_cons.mpr (Or.inr hy'))

/-! ## Claim C5: the bounding box -/

/-- C5: `get_bounding_box` returns all four fields NaN for a page with
no content blocks; otherwise `left = min x0 / width`,
`top = min y0 / height`, `right = (width - max x1) / width`,
`bottom = (height - max y1) / height`, where each extremum is an
attained bound over the blocks — with no validation of pathological
geometry (the page is arbitrary). -/
theorem claim5_bounding_box_fields (page : Page) :
    (page.blocks = [] →
      get_bounding_box page =
        [(.left, none), (.top, none), (.right, none), (.bottom, none)]) ∧
    (page.blocks ≠ [] →
      ∃ x0 y0 x1 y1 : ℚ,
        x0 ∈ page.blocks.map Rect.x0 ∧ (∀ b ∈ page.blocks, x0 ≤ b.x0) ∧
        y0 ∈ page.blocks.map Rect.y0 ∧ (∀ b ∈ page.blocks, y0 ≤ b.y0) ∧
        x1 ∈ page.blocks.map Rect.x1 ∧ (∀ b ∈ page.blocks, b.x1 ≤ x1) ∧
        y1 ∈ page.blocks.map Rect.y1 ∧ (∀ b ∈ page.blocks, b.y1 ≤ y1) ∧
        get_bounding_box page =
          [(.left, some (x0 / page.width)),
           (.top, some (y0 / page.height)),
           (.right, some ((page.width - x1) / page.width)),
           (.bottom, some ((page.height - y1) / page.height))]) := by
  constructor
  · intro h
    simp [get_bounding_box, h]
  · intro h
    match hb : page.blocks with
    | [] => exact absurd hb h
    | b :: bs =>
      refine ⟨pyFoldMin b.x0 (bs.map Rect.x0), pyFoldMin b.y0 (bs.map Rect.y0),
        pyFoldMax b.x1 (bs.map Rect.x1), pyFoldMax b.y1 (bs.map Rect.y1),
        ?_, ?_, ?_, ?_, ?_, ?_, ?_, ?_, ?_⟩
      · simpa using pyFoldMin_mem b.x0 (bs.map Rect.x0)
      · intro c hc
        apply pyFoldMin_le b.x0 (bs.map Rect.x0)
        rcases List.mem_cons.mp hc with rfl | hc'
        · exact List.mem_cons_self _ _
        · exact List.mem_cons.mpr (Or.inr (List.mem_map_of_mem Rect.x0 hc'))
      · simpa using pyFoldMin_mem b.y0 (bs.map Rect.y0)
      · intro c hc
        apply pyFoldMin_le b.y0 (bs.map Rect.y0)
        rcases List.mem_cons.mp hc with rfl | hc'
        · exact List.mem_cons_self _ _
        · exact List.mem_cons.mpr (Or.inr (List.mem_map_of_mem Rect.y0 hc'))
      · simpa using pyFoldMax_mem b.x1 (bs.map Rect.x1)
      · intro c hc
        apply pyFoldMax_ge b.x1 (bs.map Rect.x1)
        rcases List.mem_cons.mp hc with rfl | hc'
        · exact List.mem_cons_self _ _
        · exact List.mem_cons.mpr (Or.inr (List.mem_map_of_mem Rect.x1 hc'))
      · simpa using pyFoldMax_mem b.y1 (bs.map Rect.y1)
      · intro c hc
        apply pyFoldMax_ge b.y1 (bs.map Rect.y1)
        rcases List.mem_cons.mp hc with rfl | hc'
        · exact List.mem_cons_self _ _
        · exact List.mem_cons.mpr (Or.inr (List.mem_map_of_mem Rect.y1 hc'))
      · simp [get_bounding_box, hb]

/-- Witness for C5 at a concrete two-block page. -/
theorem claim5_witness :
    ((Page.mk 100 200 [Rect.mk 10 20 90 180, Rect.mk 5 30 80 190]).blocks ≠ []) ∧
    (∃ x0 y0 x1 y1 : ℚ,
      x0 ∈ (Page.mk 100 200 [Rect.mk 10 20 90 180, Rect.mk 5 30 80 190]).blocks.map Rect.x0 ∧
      (∀ b ∈ (Page.mk 100 200 [Rect.mk 10 20 90 180, Rect.mk 5 30 80 190]).blocks, x0 ≤ b.x0) ∧
      y0 ∈ (Page.mk 100 200 [Rect.mk 10 20 90 180, Rect.mk 5 30 80 190]).blocks.map Rect.y0 ∧
      (∀ b ∈ (Page.mk 100 200 [Rect.mk 10 20 90 180, Rect.mk 5 30 80 190]).blocks, y0 ≤ b.y0) ∧
      x1 ∈ (Page.mk 100 200 [Rect.mk 10 20 90 180, Rect.mk 5 30 80 190]).blocks.map Rect.x1 ∧
      (∀ b ∈ (Page.mk 100 200 [Rect.mk 10 20 90 180, Rect.mk 5 30 80 190]).blocks, b.x1 ≤ x1) ∧
      y1 ∈ (Page.mk 100 200 [Rect.mk 10 20 90 180, Rect.mk 5 30 80 190]).blocks.map Rect.y1 ∧
      (∀ b ∈ (Page.mk 100 200 [Rect.mk 10 20 90 180, Rect.mk 5 30 80 190]).blocks, b.y1 ≤ y1) ∧
      get_bounding_box (Page.mk 100 200 [Rect.mk 10 20 90 180, Rect.mk 5 30 80 190]) =
        [(.left, some (x0 / 100)),
         (.top, some (y0 / 200)),
         (.right, some ((100 - x1) / 100)),
         (.bottom, some ((200 - y1) / 200))]) :=
  ⟨by decide, (claim5_bounding_box_fields (Page.mk 100 200 [Rect.mk 10 20 90 180, Rect.mk 5 30 80 190])).2 (by decide)⟩

/-! ## Helper lemmas: the margin-collection loop -/

lemma calcMarginsAux_length (io : Bool) (ex : List ℕ) :
    ∀ (pages : List Page) (i₀ : ℕ),
      (calcMarginsAux io ex i₀ pages).length
        + ((List.range' i₀ pages.length).filter (fun i => i ∈ ex)).length = pages.length := by
  intro pages
  induction pages with
  | nil => intro i₀; simp [calcMarginsAux]
  | cons p ps ih =>
    intro i₀
    have hr : List.range' i₀ (ps.length + 1) = i₀ :: List.range' (i₀ + 1) ps.length :=
      List.range'_succ i₀ ps.length 1
    by_cases h : i₀ ∈ ex <;>
      simp [calcMarginsAux, h, hr, List.filter_cons] <;> have := ih (i₀ + 1) <;> omega

lemma calcMarginsAux_getElem (io : Bool) (ex : List ℕ) :
    ∀ (pages : List Page) (i₀ j : ℕ) (page : Page),
      pages[j]? = some page → ¬ (i₀ + j) ∈ ex →
      (calcMarginsAux io ex i₀ pages)[((List.range' i₀ j).filter (fun t => ¬ t ∈ ex)).length]? =
        some (processPage io (i₀ + j) page) := by
  intro pages
  induction pages with
  | nil => intro i₀ j page h; simp at h
  | cons p ps ih =>
    intro i₀ j page h hni
    cases j with
    | zero =>
      simp only [List.getElem?_cons_zero, Option.some.injEq] at h
      subst h
      simp only [Nat.add_zero] at hni
      simp [calcMarginsAux, hni, List.range']
    | succ j' =>
      simp only [List.getElem?_cons_succ] at h
      have hr : List.range' i₀ (j' + 1) = i₀ :: List.range' (i₀ + 1) j' :=
        List.range'_succ i₀ j' 1
      have hni' : ¬ ((i₀ + 1) + j') ∈ ex := by
        intro hc; apply hni; have : (i₀ + 1) + j' = i₀ + (j' + 1) := by omega
        rwa [this] at hc
      have hih := ih (i₀ + 1) j' page h hni'
      have hidx : (i₀ + 1) + j' = i₀ + (j' + 1) := by omega
      rw [hidx] at hih
      by_cases hmem : i₀ ∈ ex
      · rw [hr]
        simpa [calcMarginsAux, hmem, List.filter_cons] using hih
      · rw [hr]
        simp only [calcMarginsAux, hmem, if_false, List.filter_cons]
        simpa [hmem] using hih

lemma calcMarginsAux_irrelevant_exception (io : Bool) (ex : List ℕ) (e : ℕ) :
    ∀ (pages : List Page) (i₀ : ℕ), i₀ + pages.length ≤ e →
      calcMarginsAux io (e :: ex) i₀ pages = calcMarginsAux io ex i₀ pages := by
  intro pages
  induction pages with
  | nil => intro i₀ h; simp [calcMarginsAux]
  | cons p ps ih =>
    intro i₀ h
    rw [List.length_cons] at h
    have hne : i₀ ≠ e := by omega
    have hih := ih (i₀ + 1) (by omega)
    by_cases hmem : i₀ ∈ ex <;>
      simp [calcMarginsAux, List.mem_cons, hne, hmem, hih]

/-- Every bounding box is a four-binding dict in the literal order
`left, top, right, bottom`. -/
lemma gbb_shape (page : Page) : ∃ vl vt vr vb : Val,
    get_bounding_box page = [(.left, vl), (.top, vt), (.right, vr), (.bottom, vb)] := by
  rcases hb : page.blocks with _ | ⟨b, bs⟩
  · exact ⟨none, none, none, none, by simp [get_bounding_box, hb]⟩
  · exact ⟨some (pyFoldMin b.x0 (bs.map Rect.x0) / page.width),
      some (pyFoldMin b.y0 (bs.map Rect.y0) / page.height),
      some ((page.width - pyFoldMax b.x1 (bs.map Rect.x1)) / page.width),
      some ((page.height - pyFoldMax b.y1 (bs.map Rect.y1)) / page.height),
      by simp [get_bounding_box, hb]⟩

/-- The renaming on a literal `left, top, right, bottom` dict: both
parities yield key order `top, bottom, inner, outer`; the even 1-based
parity maps `inner := left`, `outer := right`, the odd parity maps
`inner := right`, `outer := left`. -/
lemma renameInnerOuter_explicit (i : ℕ) (vl vt vr vb : Val) :
    renameInnerOuter i [(.left, vl), (.top, vt), (.right, vr), (.bottom, vb)] =
      if (i + 1) % 2 = 0 then [(.top, vt), (.bottom, vb), (.inner, vl), (.outer, vr)]
      else [(.top, vt), (.bottom, vb), (.inner, vr), (.outer, vl)] := by
  by_cases h : (i + 1) % 2 = 0 <;>
    simp [renameInnerOuter, dictPop, dictGet, h, List.filter]

/-! ## Claims C6, C7: the margin-collection loop -/

/-- C6: `calculate_margins` yields one record per non-excluded page in
document order: its length is the page count minus the number of
in-range excluded indices, each retained page's record sits at the
position given by the number of retained indices before it, and an
out-of-range exception entry changes nothing. -/
theorem claim6_one_record_per_retained_page (pages : List Page) (ex : List ℕ) (io : Bool) :
    (calculate_margins pages ex io).length
        = pages.length - ((List.range pages.length).filter (fun i => i ∈ ex)).length ∧
    (∀ i page, pages[i]? = some page → ¬ i ∈ ex →
      (calculate_margins pages ex io)[((List.range i).filter (fun t => ¬ t ∈ ex)).length]? =
        some (processPage io i page)) ∧
    (∀ e, pages.length ≤ e →
      calculate_margins pages (e :: ex) io = calculate_margins pages ex io) := by
  refine ⟨?_, ?_, ?_⟩
  · have h := calcMarginsAux_length io ex pages 0
    rw [List.range_eq_range']
    unfold calculate_margins
    omega
  · intro i page hp hni
    have h := calcMarginsAux_getElem io ex pages 0 i page hp (by simpa using hni)
    rw [List.range_eq_range']
    simpa using h
  · intro e he
    exact calcMarginsAux_irrelevant_exception io ex e pages 0 (by simpa using he)

/-- Witness for C6 on a three-page document with exclusions `[1, 5]`
and an extra out-of-range exclusion `7`. -/
theorem claim6_witness :
    ((calculate_margins [Page.mk 10 10 [Rect.mk 1 1 9 9], Page.mk 10 10 [],
        Page.mk 10 10 [Rect.mk 2 2 8 8]] [1, 5] false).length
      = 3 - ((List.range 3).filter (fun i => i ∈ [1, 5])).length) ∧
    ([Page.mk 10 10 [Rect.mk 1 1 9 9], Page.mk 10 10 [],
        Page.mk 10 10 [Rect.mk 2 2 8 8]][2]? = some (Page.mk 10 10 [Rect.mk 2 2 8 8])) ∧
    (¬ 2 ∈ [1, 5]) ∧
    ((calculate_margins [Page.mk 10 10 [Rect.mk 1 1 9 9], Page.mk 10 10 [],
        Page.mk 10 10 [Rect.mk 2 2 8 8]] [1, 5] false)[((List.range 2).filter
          (fun t => ¬ t ∈ [1, 5])).length]?
      = some (processPage false 2 (Page.mk 10 10 [Rect.mk 2 2 8 8]))) ∧
    (calculate_margins [Page.mk 10 10 [Rect.mk 1 1 9 9], Page.mk 10 10 [],
        Page.mk 10 10 [Rect.mk 2 2 8 8]] (7 :: [1, 5]) false
      = calculate_margins [Page.mk 10 10 [Rect.mk 1 1 9 9], Page.mk 10 10 [],
        Page.mk 10 10 [Rect.mk 2 2 8 8]] [1, 5] false) :=
  ⟨(claim6_one_record_per_retained_page _ [1, 5] false).1,
    by decide, by decide,
    (claim6_one_record_per_retained_page _ [1, 5] false).2.1 2 _ (by decide) (by decide),
    (claim6_one_record_per_retained_page _ [1, 5] false).2.2 7 (by decide)⟩

/-- C7: with `useInnerOuter` set, the record of the retained page at
0-based document index `i` is its bounding box renamed by the parity of
the 1-based position `i + 1`: even positions get `inner := left`,
`outer := right`, odd positions get `inner := right`, `outer := left`;
`top` and `bottom` are never renamed, and the parity depends only on
the document index `i`, not on which earlier pages were excluded. -/
theorem claim7_inner_outer_parity (pages : List Page) (ex : List ℕ) (i : ℕ) (page : Page)
    (hp : pages[i]? = some page) (hni : ¬ i ∈ ex) :
    ∃ vl vt vr vb : Val,
      get_bounding_box page = [(.left, vl), (.top, vt), (.right, vr), (.bottom, vb)] ∧
      (calculate_margins pages ex true)[((List.range i).filter (fun t => ¬ t ∈ ex)).length]? =
        some (renameInnerOuter i (get_bounding_box page)) ∧
      renameInnerOuter i (get_bounding_box page) =
        (if (i + 1) % 2 = 0 then [(.top, vt), (.bottom, vb), (.inner, vl), (.outer, vr)]
         else [(.top, vt), (.bottom, vb), (.inner, vr), (.outer, vl)]) := by
  obtain ⟨vl, vt, vr, vb, hshape⟩ := gbb_shape page
  refine ⟨vl, vt, vr, vb, hshape, ?_, ?_⟩
  · have h := calcMarginsAux_getElem true ex pages 0 i page hp (by simpa using hni)
    rw [List.range_eq_range']
    simpa [processPage] using h
  · rw [hshape, renameInnerOuter_explicit]

/-- Witness for C7 at document index 2 (odd 1-based position 3) with
page 0 excluded. -/
theorem claim7_witness :
    ([Page.mk 10 10 [], Page.mk 10 10 [], Page.mk 10 20 [Rect.mk 1 2 9 18]][2]?
      = some (Page.mk 10 20 [Rect.mk 1 2 9 18])) ∧
    (¬ 2 ∈ [0]) ∧
    (∃ vl vt vr vb : Val,
      get_bounding_box (Page.mk 10 20 [Rect.mk 1 2 9 18]) =
        [(.left, vl), (.top, vt), (.right, vr), (.bottom, vb)] ∧
      (calculate_margins [Page.mk 10 10 [], Page.mk 10 10 [],
          Page.mk 10 20 [Rect.mk 1 2 9 18]] [0] true)[((List.range 2).filter
            (fun t => ¬ t ∈ [0])).length]? =
        some (renameInnerOuter 2 (get_bounding_box (Page.mk 10 20 [Rect.mk 1 2 9 18]))) ∧
      renameInnerOuter 2 (get_bounding_box (Page.mk 10 20 [Rect.mk 1 2 9 18])) =
        (if (2 + 1) % 2 = 0 then [(.top, vt), (.bottom, vb), (.inner, vl), (.outer, vr)]
         else [(.top, vt), (.bottom, vb), (.inner, vr), (.outer, vl)])) :=
  ⟨by decide, by decide,
    claim7_inner_outer_parity [Page.mk 10 10 [], Page.mk 10 10 [],
      Page.mk 10 20 [Rect.mk 1 2 9 18]] [0] 2 (Page.mk 10 20 [Rect.mk 1 2 9 18])
      (by decide) (by decide)⟩

/-! ## Helper lemmas: dict lookups and the bad-cuts loop -/

lemma dictGet_eq_none_of_not_mem_keys {α : Type} :
    ∀ (m : List (MKey × α)) (k : MKey), ¬ k ∈ m.map Prod.fst → dictGet m k = none := by
  intro m
  induction m with
  | nil => intro k _; rfl
  | cons p rest ih =>
    intro k hk
    simp only [List.map_cons, List.mem_cons] at hk
    push_neg at hk
    simp only [dictGet]
    rw [if_neg (Ne.symm hk.1)]
    exact ih k hk.2

lemma dictGet_of_mem_nodup {α : Type} :
    ∀ (m : List (MKey × α)) (k : MKey) (v : α),
      (m.map Prod.fst).Nodup → (k, v) ∈ m → dictGet m k = some v := by
  intro m
  induction m with
  | nil => intro k v _ h; simp at h
  | cons p rest ih =>
    intro k v hnd hmem
    simp only [List.map_cons, List.nodup_cons] at hnd
    rcases List.mem_cons.mp hmem with rfl | hmem'
    · simp [dictGet]
    · have hk : p.1 ≠ k := by
        intro h
        exact hnd.1 (h ▸ List.mem_map_of_mem Prod.fst hmem')
      simp only [dictGet, if_neg hk]
      exact ih k v hnd.2 hmem'

lemma badCutsRecord_error_eq (thr : List (MKey × ℚ)) (i : ℕ) :
    ∀ (rec : MarginRecord) (acc : List (MKey × List ℕ)) (e : PyError),
      badCutsRecord thr i rec acc = .error e → e = .keyError := by
  intro rec
  induction rec with
  | nil => intro acc e h; simp [badCutsRecord] at h
  | cons kv rest ih =>
    intro acc e h
    rcases kv with ⟨k, v⟩
    simp only [badCutsRecord] at h
    cases hthr : dictGet thr k with
    | none =>
      rw [hthr] at h
      injection h with h2
      exact h2.symm
    | some t => rw [hthr] at h; exact ih _ e h

lemma badCutsRecord_error_of_missing (thr : List (MKey × ℚ)) (i : ℕ) :
    ∀ (rec : MarginRecord) (acc : List (MKey × List ℕ)),
      (∃ kv ∈ rec, dictGet thr kv.1 = none) →
      badCutsRecord thr i rec acc = .error .keyError := by
  intro rec
  induction rec with
  | nil => intro acc h; simp at h
  | cons kv rest ih =>
    intro acc h
    rcases kv with ⟨k, v⟩
    cases hthr : dictGet thr k with
    | none => simp [badCutsRecord, hthr]
    | some t =>
      obtain ⟨kv', hkv', hmiss⟩ := h
      rcases List.mem_cons.mp hkv' with rfl | hkv''
      · rw [hthr] at hmiss; exact absurd hmiss (by simp)
      · simp only [badCutsRecord, hthr]
        exact ih _ ⟨kv', hkv'', hmiss⟩

lemma badCutsRecord_ok (i : ℕ) (thr : List (MKey × ℚ)) :
    ∀ (rec : MarginRecord) (acc : List (MKey × List ℕ)),
      (rec.map Prod.fst).Nodup →
      (∀ kv ∈ rec, (dictGet thr kv.1).isSome) →
      badCutsRecord thr i rec acc =
        .ok (acc.map (fun p => if recordFlags thr rec p.1 then (p.1, p.2 ++ [i]) else p)) := by
  intro rec
  induction rec with
  | nil =>
    intro acc _ _
    have hfun : ∀ p : MKey × List ℕ,
        (if recordFlags thr ([] : MarginRecord) p.1 then (p.1, p.2 ++ [i]) else p) = p := by
      intro p; simp [recordFlags, dictGet]
    simp [badCutsRecord, List.map_congr_left (fun p _ => hfun p)]
  | cons kv rest ih =>
    intro acc hnd hcov
    rcases kv with ⟨k0, v0⟩
    have ht0s : (dictGet thr k0).isSome := hcov _ (List.mem_cons_self _ _)
    obtain ⟨t0, ht0⟩ := Option.isSome_iff_exists.mp ht0s
    simp only [List.map_cons, List.nodup_cons] at hnd
    have hrest0 : dictGet rest k0 = none :=
      dictGet_eq_none_of_not_mem_keys rest k0 hnd.1
    have hflag_cons : ∀ k : MKey,
        recordFlags thr ((k0, v0) :: rest) k =
          if k0 = k then pyLt v0 t0 else recordFlags thr rest k := by
      intro k
      by_cases hk : k0 = k
      · subst hk
        simp [recordFlags, dictGet, ht0]
      · simp [recordFlags, dictGet, hk]
    simp only [badCutsRecord, ht0]
    rw [ih _ hnd.2 (fun kv h => hcov kv (List.mem_cons.mpr (Or.inr h)))]
    congr 1
    by_cases hlt : pyLt v0 t0
    · rw [if_pos hlt]
      unfold dictAppend
      rw [List.map_map]
      apply List.map_congr_left
      intro p _
      rcases p with ⟨pk, pl⟩
      by_cases hk : k0 = pk
      · subst hk
        have hrestflag : recordFlags thr rest k0 = false := by
          simp [recordFlags, hrest0]
        simp [Function.comp, hflag_cons, hrestflag, hlt]
      · simp [Function.comp, hflag_cons, hk, Ne.symm hk]
    · rw [if_neg hlt]
      apply List.map_congr_left
      intro p _
      rcases p with ⟨pk, pl⟩
      by_cases hk : k0 = pk
      · subst hk
        have hrestflag : recordFlags thr rest k0 = false := by
          simp [recordFlags, hrest0]
        simp [hflag_cons, hrestflag, hlt]
      · simp [hflag_cons, hk]

lemma badCutsGo_error_eq (thr : List (MKey × ℚ)) :
    ∀ (ms : List MarginRecord) (i : ℕ) (acc : List (MKey × List ℕ)) (e : PyError),
      badCutsGo thr i ms acc = .error e → e = .keyError := by
  intro ms
  induction ms with
  | nil => intro i acc e h; simp [badCutsGo] at h
  | cons m rest ih =>
    intro i acc e h
    simp only [badCutsGo, bind, Except.bind] at h
    cases hrec : badCutsRecord thr i m acc with
    | error e' =>
      rw [hrec] at h
      cases h
      exact badCutsRecord_error_eq thr i m acc e hrec
    | ok acc' =>
      rw [hrec] at h
      exact ih (i + 1) acc' e h

lemma badCutsGo_error_of_missing (thr : List (MKey × ℚ)) :
    ∀ (ms : List MarginRecord) (i : ℕ) (acc : List (MKey × List ℕ)),
      (∃ rec ∈ ms, ∃ kv ∈ rec, dictGet thr kv.1 = none) →
      badCutsGo thr i ms acc = .error .keyError := by
  intro ms
  induction ms with
  | nil => intro i acc h; simp at h
  | cons m rest ih =>
    intro i acc h
    obtain ⟨rec, hrec, hmiss⟩ := h
    simp only [badCutsGo, bind, Except.bind]
    rcases List.mem_cons.mp hrec with rfl | hrec'
    · rw [badCutsRecord_error_of_missing thr i rec acc hmiss]
    · cases hr : badCutsRecord thr i m acc with
      | error e => rw [badCutsRecord_error_eq thr i m acc e hr]
      | ok acc' => exact ih (i + 1) acc' ⟨rec, hrec', hmiss⟩

lemma badCutsGo_ok (thr : List (MKey × ℚ)) :
    ∀ (ms : List MarginRecord) (i : ℕ) (acc : List (MKey × List ℕ)),
      (∀ rec ∈ ms, (rec.map Prod.fst).Nodup) →
      (∀ rec ∈ ms, ∀ kv ∈ rec, (dictGet thr kv.1).isSome) →
      badCutsGo thr i ms acc =
        .ok (acc.map (fun p => (p.1, p.2 ++ flagsFrom thr p.1 i ms))) := by
  intro ms
  induction ms with
  | nil =>
    intro i acc _ _
    simp [badCutsGo, flagsFrom]
  | cons m rest ih =>
    intro i acc hnd hcov
    simp only [badCutsGo, bind, Except.bind]
    rw [badCutsRecord_ok i thr m acc (hnd _ (List.mem_cons_self _ _))
      (hcov _ (List.mem_cons_self _ _))]
    show badCutsGo thr (i + 1) rest
        (acc.map (fun p => if recordFlags thr m p.1 then (p.1, p.2 ++ [i]) else p)) =
      Except.ok (acc.map (fun p => (p.1, p.2 ++ flagsFrom thr p.1 i (m :: rest))))
    rw [ih (i + 1) _ (fun r h => hnd r (List.mem_cons.mpr (Or.inr h)))
      (fun r h => hcov r (List.mem_cons.mpr (Or.inr h)))]
    rw [List.map_map]
    congr 1
    apply List.map_congr_left
    intro p _
    by_cases hflag : recordFlags thr m p.1 <;>
      simp [Function.comp, hflag, flagsFrom, List.append_assoc]

lemma le_of_mem_flaggedIndicesFrom (key : MKey) (t : ℚ) :
    ∀ (ms : List MarginRecord) (i₀ j : ℕ),
      j ∈ flaggedIndicesFrom key t i₀ ms → i₀ ≤ j := by
  intro ms
  induction ms with
  | nil => intro i₀ j h; simp [flaggedIndicesFrom] at h
  | cons m rest ih =>
    intro i₀ j h
    simp only [flaggedIndicesFrom, List.mem_append] at h
    rcases h with h | h
    · rcases ht : flaggedBySpec m key t with _ | _ <;> rw [ht] at h <;> simp at h
      omega
    · have := ih (i₀ + 1) j h
      omega

lemma flagged_of_mem_flaggedIndicesFrom (key : MKey) (t : ℚ) :
    ∀ (ms : List MarginRecord) (i₀ j : ℕ),
      j ∈ flaggedIndicesFrom key t i₀ ms →
      ∃ rec, ms[j - i₀]? = some rec ∧ flaggedBySpec rec key t = true := by
  intro ms
  induction ms with
  | nil => intro i₀ j h; simp [flaggedIndicesFrom] at h
  | cons m rest ih =>
    intro i₀ j h
    simp only [flaggedIndicesFrom, List.mem_append] at h
    rcases h with h | h
    · rcases ht : flaggedBySpec m key t with _ | _ <;> rw [ht] at h <;> simp at h
      subst h
      exact ⟨m, by simp, ht⟩
    · have hle := le_of_mem_flaggedIndicesFrom key t rest (i₀ + 1) j h
      obtain ⟨rec, hrec, hfl⟩ := ih (i₀ + 1) j h
      refine ⟨rec, ?_, hfl⟩
      have hidx : j - i₀ = (j - (i₀ + 1)) + 1 := by omega
      rw [hidx, List.getElem?_cons_succ]
      exact hrec

lemma flagsFrom_eq_flaggedIndicesFrom (thr : List (MKey × ℚ)) (key : MKey) (t : ℚ)
    (ht : dictGet thr key = some t) :
    ∀ (ms : List MarginRecord) (i : ℕ),
      flagsFrom thr key i ms = flaggedIndicesFrom key t i ms := by
  intro ms
  induction ms with
  | nil => intro i; rfl
  | cons m rest ih =>
    intro i
    have hflag : recordFlags thr m key = flaggedBySpec m key t := by
      cases hv : dictGet m key <;> simp [recordFlags, flaggedBySpec, hv, ht]
    simp only [flagsFrom, flaggedIndicesFrom, hflag, ih]

/-! ## Claims C8, C10: threshold flagging -/

/-- C8: on records whose keys are all covered by the threshold dict
(dict key sets are duplicate-free), `get_bad_cuts_with_margin` returns,
per threshold key, exactly the ordered list of 0-based record indices
whose value for that key is strictly below that key's threshold, and an
index whose record holds NaN for a key is never in that key's list, for
any threshold. -/
theorem claim8_flags_strictly_below_threshold (margins : List MarginRecord)
    (thr : List (MKey × ℚ))
    (hthr : (thr.map Prod.fst).Nodup)
    (hnd : ∀ rec ∈ margins, (rec.map Prod.fst).Nodup)
    (hcov : ∀ rec ∈ margins, ∀ kv ∈ rec, (dictGet thr kv.1).isSome) :
    get_bad_cuts_with_margin margins thr =
      .ok (thr.map (fun p => (p.1, flaggedIndicesSpec margins p.1 p.2))) ∧
    (∀ key t i rec, margins[i]? = some rec → dictGet rec key = some none →
      ¬ i ∈ flaggedIndicesSpec margins key t) := by
  constructor
  · unfold get_bad_cuts_with_margin
    rw [badCutsGo_ok thr margins 0 _ hnd hcov, List.map_map]
    congr 1
    apply List.map_congr_left
    intro p hp
    have hpt : dictGet thr p.1 = some p.2 := dictGet_of_mem_nodup thr p.1 p.2 hthr hp
    simp [Function.comp, flaggedIndicesSpec,
      flagsFrom_eq_flaggedIndicesFrom thr p.1 p.2 hpt margins 0]
  · intro key t i rec hrec hnan hmem
    obtain ⟨rec', hrec', hfl⟩ :=
      flagged_of_mem_flaggedIndicesFrom key t margins 0 i hmem
    rw [Nat.sub_zero] at hrec'
    rw [hrec] at hrec'
    cases hrec'
    rw [flaggedBySpec, hnan] at hfl
    simp [pyLt] at hfl

/-- Witness for C8: two records (the second NaN at `left`), thresholds
`left: 1/10`, `top: 1/5`. -/
theorem claim8_witness :
    (([(MKey.left, (1 : ℚ)/10), (MKey.top, 1/5)].map Prod.fst).Nodup) ∧
    (∀ rec ∈ [[(MKey.left, some ((1 : ℚ)/20)), (MKey.top, some (1/10))],
        [(MKey.left, (none : Val)), (MKey.top, some (1/2))]],
      (rec.map Prod.fst).Nodup) ∧
    (∀ rec ∈ [[(MKey.left, some ((1 : ℚ)/20)), (MKey.top, some (1/10))],
        [(MKey.left, (none : Val)), (MKey.top, some (1/2))]],
      ∀ kv ∈ rec, (dictGet [(MKey.left, (1 : ℚ)/10), (MKey.top, 1/5)] kv.1).isSome) ∧
    (get_bad_cuts_with_margin
        [[(MKey.left, some ((1 : ℚ)/20)), (MKey.top, some (1/10))],
         [(MKey.left, (none : Val)), (MKey.top, some (1/2))]]
        [(MKey.left, (1 : ℚ)/10), (MKey.top, 1/5)] =
      .ok ([(MKey.left, (1 : ℚ)/10), (MKey.top, 1/5)].map
        (fun p => (p.1, flaggedIndicesSpec
          [[(MKey.left, some ((1 : ℚ)/20)), (MKey.top, some (1/10))],
           [(MKey.left, (none : Val)), (MKey.top, some (1/2))]] p.1 p.2))) ∧
    (∀ key t i rec,
      [[(MKey.left, some ((1 : ℚ)/20)), (MKey.top, some (1/10))],
       [(MKey.left, (none : Val)), (MKey.top, some (1/2))]][i]? = some rec →
      dictGet rec key = some none →
      ¬ i ∈ flaggedIndicesSpec
        [[(MKey.left, some ((1 : ℚ)/20)), (MKey.top, some (1/10))],
         [(MKey.left, (none : Val)), (MKey.top, some (1/2))]] key t)) :=
  ⟨by simp, by simp, (by
      intro rec hrec kv hkv
      simp only [List.mem_cons, List.not_mem_nil, or_false] at hrec
      rcases hrec with rfl | rfl <;>
        · simp only [List.mem_cons, List.not_mem_nil, or_false] at hkv
          rcases hkv with rfl | rfl <;> rfl),
    claim8_flags_strictly_below_threshold
      [[(MKey.left, some ((1 : ℚ)/20)), (MKey.top, some (1/10))],
       [(MKey.left, (none : Val)), (MKey.top, some (1/2))]]
      [(MKey.left, (1 : ℚ)/10), (MKey.top, 1/5)]
      (by simp) (by simp) (by
      intro rec hrec kv hkv
      simp only [List.mem_cons, List.not_mem_nil, or_false] at hrec
      rcases hrec with rfl | rfl <;>
        · simp only [List.mem_cons, List.not_mem_nil, or_false] at hkv
          rcases hkv with rfl | rfl <;> rfl)⟩

/-- C10: a record key absent from the threshold mapping raises
`KeyError` (even when just one record carries a non-NaN value for it):
the defensive skipping works only in the other direction, so the
threshold mapping must cover every key appearing in the records. -/
theorem claim10_missing_threshold_key_raises_keyerror (margins : List MarginRecord)
    (thr : List (MKey × ℚ))
    (h : ∃ rec ∈ margins, ∃ kv ∈ rec, kv.2 ≠ none ∧ dictGet thr kv.1 = none) :
    get_bad_cuts_with_margin margins thr = .error .keyError := by
  unfold get_bad_cuts_with_margin
  apply badCutsGo_error_of_missing
  obtain ⟨rec, hrec, kv, hkv, _, hmiss⟩ := h
  exact ⟨rec, hrec, kv, hkv, hmiss⟩

/-- Witness for C10: a record with a non-NaN `left` value against a
threshold dict that only knows `top`. -/
theorem claim10_witness :
    (∃ rec ∈ [[(MKey.left, some ((1 : ℚ)/20))]], ∃ kv ∈ rec,
      kv.2 ≠ (none : Val) ∧ dictGet [(MKey.top, (1 : ℚ)/10)] kv.1 = none) ∧
    get_bad_cuts_with_margin [[(MKey.left, some ((1 : ℚ)/20))]]
        [(MKey.top, (1 : ℚ)/10)] = .error .keyError :=
  ⟨⟨[(MKey.left, some ((1 : ℚ)/20))], by simp,
      (MKey.left, some ((1 : ℚ)/20)), by simp, by simp, by simp [dictGet]⟩,
    claim10_missing_threshold_key_raises_keyerror [[(MKey.left, some ((1 : ℚ)/20))]]
      [(MKey.top, (1 : ℚ)/10)]
      ⟨[(MKey.left, some ((1 : ℚ)/20))], by simp,
        (MKey.left, some ((1 : ℚ)/20)), by simp, by simp, by simp [dictGet]⟩⟩

/-! ## Helper lemmas: value collection and statistics errors -/

lemma computeStats_error_eq (data : List ℚ) (e : PyError)
    (h : computeStats data = .error e) : e = .valueErrorZeroSize := by
  cases data with
  | nil =>
    simp only [computeStats] at h
    injection h with h2
    exact h2.symm
  | cons x xs => simp [computeStats] at h

lemma mapM_lookup_ok (k : MKey) :
    ∀ ms : List MarginRecord, (∀ rec ∈ ms, (dictGet rec k).isSome) →
      ms.mapM (fun margin => lookupOrKeyError margin k) =
        .ok (ms.map (fun rec => (dictGet rec k).getD none)) := by
  intro ms
  induction ms with
  | nil => intro _; rw [List.mapM_nil]; rfl
  | cons rec rest ih =>
    intro hcov
    obtain ⟨v, hv⟩ := Option.isSome_iff_exists.mp (hcov _ (List.mem_cons_self _ _))
    rw [List.mapM_cons, ih (fun r h => hcov r (List.mem_cons.mpr (Or.inr h)))]
    simp [lookupOrKeyError, hv, bind, Except.bind, pure, Except.pure]

lemma collectValues_ok (k : MKey) (ms : List MarginRecord)
    (hcov : ∀ rec ∈ ms, (dictGet rec k).isSome) :
    collectValues ms k =
      .ok ((ms.map (fun rec => (dictGet rec k).getD none)).filterMap id) := by
  unfold collectValues
  rw [mapM_lookup_ok k ms hcov]
  rfl

lemma filterMap_congr_mem {α β : Type} (f g : α → Option β) :
    ∀ l : List α, (∀ a ∈ l, f a = g a) → l.filterMap f = l.filterMap g := by
  intro l
  induction l with
  | nil => intro _; rfl
  | cons a rest ih =>
    intro h
    rw [List.filterMap_cons, List.filterMap_cons, h a (List.mem_cons_self _ _),
      ih (fun b hb => h b (List.mem_cons.mpr (Or.inr hb)))]

lemma collectValues_eq_nonNaN (k : MKey) (ms : List MarginRecord)
    (hcov : ∀ rec ∈ ms, (dictGet rec k).isSome) :
    collectValues ms k = .ok (nonNaNValues ms k) := by
  rw [collectValues_ok k ms hcov, List.filterMap_map]
  unfold nonNaNValues
  congr 1
  apply filterMap_congr_mem
  intro rec hrec
  obtain ⟨v, hv⟩ := Option.isSome_iff_exists.mp (hcov rec hrec)
  simp [Function.comp, hv]

lemma collectValues_all_nan (k : MKey) (ms : List MarginRecord)
    (hnan : ∀ rec ∈ ms, dictGet rec k = some none) :
    collectValues ms k = .ok [] := by
  rw [collectValues_ok k ms (fun rec h => by rw [hnan rec h]; rfl)]
  congr 1
  rw [List.filterMap_map]
  rw [List.filterMap_eq_nil_iff]
  intro rec hrec
  simp [Function.comp, hnan rec hrec]

lemma mapM_error_of_exists {α β : Type} (f : α → Except PyError β) (e0 : PyError) :
    ∀ l : List α,
      (∀ a ∈ l, ∀ e, f a = .error e → e = e0) →
      (∃ a ∈ l, f a = .error e0) →
      l.mapM f = .error e0 := by
  intro l
  induction l with
  | nil => intro _ h; simp at h
  | cons a rest ih =>
    intro hall hex
    rw [List.mapM_cons]
    cases hfa : f a with
    | error e =>
      rw [hall a (List.mem_cons_self _ _) e hfa]
      rfl
    | ok b =>
      obtain ⟨a', ha', hfa'⟩ := hex
      rcases List.mem_cons.mp ha' with rfl | ha''
      · rw [hfa] at hfa'; cases hfa'
      · rw [ih (fun x hx => hall x (List.mem_cons.mpr (Or.inr hx)))
          ⟨a', ha'', hfa'⟩]
        rfl

lemma mapM_ok_of_all {α β : Type} (f : α → Except PyError β) (g : α → β) :
    ∀ l : List α, (∀ a ∈ l, f a = .ok (g a)) → l.mapM f = .ok (l.map g) := by
  intro l
  induction l with
  | nil => intro _; rw [List.mapM_nil]; rfl
  | cons a rest ih =>
    intro hall
    rw [List.mapM_cons, hall a (List.mem_cons_self _ _),
      ih (fun x hx => hall x (List.mem_cons.mpr (Or.inr hx)))]
    rfl

/-! ## Claim C4: the all-NaN statistics key -/

/-- C4, counterexample to the claim as stated: on a single record whose
`left` value is NaN, `statistics_margins` neither raises any locally
named `EmptyStatisticsError` (the code defines no exception class at
all) nor skips the key: it propagates the library-level
`ValueError: zero-size array to reduction operation` that `np.min`
raises on the empty collected list, and returns no statistics dict. -/
theorem claim4_counterexample :
    statistics_margins [[(.left, (none : Val)), (.top, some ((1 : ℚ)/10)),
        (.right, some (1/10)), (.bottom, some (1/10))]] =
      .error .valueErrorZeroSize ∧
    ∀ r, statistics_margins [[(.left, (none : Val)), (.top, some ((1 : ℚ)/10)),
        (.right, some (1/10)), (.bottom, some (1/10))]] ≠ .ok r := by
  have hval : statistics_margins [[(.left, (none : Val)), (.top, some ((1 : ℚ)/10)),
      (.right, some (1/10)), (.bottom, some (1/10))]] = .error .valueErrorZeroSize := rfl
  exact ⟨hval, fun r h => Except.noConfusion (hval.symm.trans h)⟩

/-- C4 (amended): for every non-empty record list whose records all
carry the first record's keys, if some key of the first record is NaN in
every record then `statistics_margins` fails with the library-level
`ValueError` of an empty `np.min` reduction (there is no locally-named
`EmptyStatisticsError` and the key is not skipped). -/
theorem claim4_all_nan_key_propagates_library_error
    (first : MarginRecord) (rest : List MarginRecord) (key : MKey)
    (hcov : ∀ rec ∈ first :: rest, ∀ k ∈ first.map Prod.fst, (dictGet rec k).isSome)
    (hk : key ∈ first.map Prod.fst)
    (hnan : ∀ rec ∈ first :: rest, dictGet rec key = some none) :
    statistics_margins (first :: rest) = .error .valueErrorZeroSize := by
  have hmap : (first.map Prod.fst).mapM (fun key => do
      let data ← collectValues (first :: rest) key
      let s ← computeStats data
      pure (key, s)) = Except.error PyError.valueErrorZeroSize := by
    apply mapM_error_of_exists _ .valueErrorZeroSize (first.map Prod.fst) ?hall ?hex
    case hall =>
      intro k hkmem e hfe
      have hcv := collectValues_eq_nonNaN k (first :: rest)
        (fun rec hrec => hcov rec hrec k hkmem)
      rw [hcv] at hfe
      simp only [bind, Except.bind] at hfe
      cases hcs : computeStats (nonNaNValues (first :: rest) k) with
      | error e2 =>
        rw [hcs] at hfe
        injection hfe with h2
        rw [← h2]
        exact computeStats_error_eq _ e2 hcs
      | ok s =>
        rw [hcs] at hfe
        cases hfe
    case hex =>
      refine ⟨key, hk, ?_⟩
      have hcv := collectValues_all_nan key (first :: rest) hnan
      rw [hcv]
      rfl
  simp only [statistics_margins, hmap]
  rfl

/-- Witness for C4's amended theorem at the counterexample input. -/
theorem claim4_witness :
    (∀ rec ∈ [[(MKey.left, (none : Val)), (MKey.top, some ((1 : ℚ)/10)),
        (MKey.right, some (1/10)), (MKey.bottom, some (1/10))]],
      ∀ k ∈ [(MKey.left, (none : Val)), (MKey.top, some ((1 : ℚ)/10)),
        (MKey.right, some (1/10)), (MKey.bottom, some (1/10))].map Prod.fst,
        (dictGet rec k).isSome) ∧
    (MKey.left ∈ [(MKey.left, (none : Val)), (MKey.top, some ((1 : ℚ)/10)),
        (MKey.right, some (1/10)), (MKey.bottom, some (1/10))].map Prod.fst) ∧
    (∀ rec ∈ [[(MKey.left, (none : Val)), (MKey.top, some ((1 : ℚ)/10)),
        (MKey.right, some (1/10)), (MKey.bottom, some (1/10))]],
      dictGet rec MKey.left = some none) ∧
    statistics_margins [[(MKey.left, (none : Val)), (MKey.top, some ((1 : ℚ)/10)),
        (MKey.right, some (1/10)), (MKey.bottom, some (1/10))]] =
      .error .valueErrorZeroSize :=
  ⟨by
      intro rec hrec k hkm
      simp only [List.mem_cons, List.not_mem_nil, or_false] at hrec
      subst hrec
      simp only [List.map_cons, List.map_nil, List.mem_cons, List.not_mem_nil,
        or_false] at hkm
      rcases hkm with rfl | rfl | rfl | rfl <;> rfl,
    by simp,
    by
      intro rec hrec
      simp only [List.mem_cons, List.not_mem_nil, or_false] at hrec
      subst hrec
      rfl,
    claim4_all_nan_key_propagates_library_error
      [(MKey.left, (none : Val)), (MKey.top, some ((1 : ℚ)/10)),
        (MKey.right, some (1/10)), (MKey.bottom, some (1/10))] [] MKey.left
      (by
        intro rec hrec k hkm
        simp only [List.mem_cons, List.not_mem_nil, or_false] at hrec
        subst hrec
        simp only [List.map_cons, List.map_nil, List.mem_cons, List.not_mem_nil,
          or_false] at hkm
        rcases hkm with rfl | rfl | rfl | rfl <;> rfl)
      (by simp)
      (by
        intro rec hrec
        simp only [List.mem_cons, List.not_mem_nil, or_false] at hrec
        subst hrec
        rfl)⟩

/-! ## Helper lemmas: the linear-interpolation percentile -/

lemma getD_eq_getElem (s : List ℚ) (i : ℕ) (d : ℚ) (h : i < s.length) :
    s.getD i d = s[i] := by
  rw [List.getD_eq_getElem?_getD, List.getElem?_eq_getElem h, Option.getD_some]

lemma getD_default_of_le (s : List ℚ) (i : ℕ) (d : ℚ) (h : s.length ≤ i) :
    s.getD i d = d := by
  rw [List.getD_eq_getElem?_getD, List.getElem?_eq_none h, Option.getD_none]

lemma sorted_getD_mono {s : List ℚ} (hs : s.Sorted (· ≤ ·)) {i j : ℕ} (d₁ d₂ : ℚ)
    (hij : i ≤ j) (hj : j < s.length) :
    s.getD i d₁ ≤ s.getD j d₂ := by
  have hi : i < s.length := lt_of_le_of_lt hij hj
  rw [getD_eq_getElem s i d₁ hi, getD_eq_getElem s j d₂ hj]
  rcases eq_or_lt_of_le hij with rfl | hlt
  · exact le_refl _
  · exact List.pairwise_iff_get.mp hs ⟨i, hi⟩ ⟨j, hj⟩ hlt

lemma floor_toNat_cast (x : ℚ) (h0 : 0 ≤ x) : ((⌊x⌋.toNat : ℚ)) = (⌊x⌋ : ℚ) := by
  have h := Int.toNat_of_nonneg (Int.floor_nonneg.mpr h0)
  exact_mod_cast congrArg (fun z : ℤ => (z : ℚ)) h

lemma interpAt_mono {s : List ℚ} (hs : s.Sorted (· ≤ ·)) (hne : s ≠ [])
    {h h' : ℚ} (h0 : 0 ≤ h) (hhh : h ≤ h') (hend : h' ≤ (s.length : ℚ) - 1) :
    interpAt s h ≤ interpAt s h' := by
  have hn : 1 ≤ s.length := List.length_pos.mpr hne
  have h0' : (0 : ℚ) ≤ h' := le_trans h0 hhh
  have hfl : (0 : ℤ) ≤ ⌊h⌋ := Int.floor_nonneg.mpr h0
  have hfl' : (0 : ℤ) ≤ ⌊h'⌋ := Int.floor_nonneg.mpr h0'
  unfold interpAt
  dsimp only
  set i := ⌊h⌋.toNat with hidef
  set i' := ⌊h'⌋.toNat with hi'def
  have hcast : (i : ℚ) = (⌊h⌋ : ℚ) := floor_toNat_cast h h0
  have hcast' : (i' : ℚ) = (⌊h'⌋ : ℚ) := floor_toNat_cast h' h0'
  have hile : (i : ℚ) ≤ h := by rw [hcast]; exact Int.floor_le h
  have hile' : (i' : ℚ) ≤ h' := by rw [hcast']; exact Int.floor_le h'
  have hilt : h < (i : ℚ) + 1 := by rw [hcast]; exact_mod_cast Int.lt_floor_add_one h
  have hilt' : h' < (i' : ℚ) + 1 := by rw [hcast']; exact_mod_cast Int.lt_floor_add_one h'
  have hii' : i ≤ i' := Int.toNat_le_toNat (Int.floor_le_floor hhh)
  have hi'n : i' < s.length := by
    have h1 : (⌊h'⌋ : ℚ) ≤ (s.length : ℚ) - 1 := le_trans (Int.floor_le h') hend
    have h2 : ⌊h'⌋ ≤ (s.length : ℤ) - 1 := by exact_mod_cast h1
    omega
  have hin : i < s.length := lt_of_le_of_lt hii' hi'n
  have hlo_hi : s.getD i 0 ≤ s.getD (i + 1) (s.getD i 0) := by
    by_cases hb : i + 1 < s.length
    · exact sorted_getD_mono hs 0 (s.getD i 0) (Nat.le_succ i) hb
    · rw [getD_default_of_le s (i + 1) _ (by omega)]
  have hlo_hi' : s.getD i' 0 ≤ s.getD (i' + 1) (s.getD i' 0) := by
    by_cases hb : i' + 1 < s.length
    · exact sorted_getD_mono hs 0 (s.getD i' 0) (Nat.le_succ i') hb
    · rw [getD_default_of_le s (i' + 1) _ (by omega)]
  rcases eq_or_lt_of_le hii' with heq | hlt
  · rw [← heq]
    have hprod : (0 : ℚ) ≤ (h' - h) * (s.getD (i + 1) (s.getD i 0) - s.getD i 0) :=
      mul_nonneg (by linarith) (by linarith [hlo_hi])
    nlinarith [hprod]
  · have hub : s.getD i 0 + (h - (i : ℚ)) * (s.getD (i + 1) (s.getD i 0) - s.getD i 0) ≤
        s.getD (i + 1) (s.getD i 0) := by
      have hprod : (0 : ℚ) ≤ (1 - (h - (i : ℚ))) * (s.getD (i + 1) (s.getD i 0) - s.getD i 0) :=
        mul_nonneg (by linarith) (by linarith [hlo_hi])
      nlinarith [hprod]
    have hmid : s.getD (i + 1) (s.getD i 0) ≤ s.getD i' 0 :=
      sorted_getD_mono hs (s.getD i 0) 0 hlt hi'n
    have hlb : s.getD i' 0 ≤
        s.getD i' 0 + (h' - (i' : ℚ)) * (s.getD (i' + 1) (s.getD i' 0) - s.getD i' 0) := by
      have hprod : (0 : ℚ) ≤ (h' - (i' : ℚ)) * (s.getD (i' + 1) (s.getD i' 0) - s.getD i' 0) :=
        mul_nonneg (by linarith) (by linarith [hlo_hi'])
      linarith [hprod]
    exact le_trans hub (le_trans hmid hlb)

lemma percentileSorted_mono {s : List ℚ} (hs : s.Sorted (· ≤ ·)) (hne : s ≠ [])
    {q q' : ℚ} (hq0 : 0 ≤ q) (hqq : q ≤ q') (hq100 : q' ≤ 100) :
    percentileSorted s q ≤ percentileSorted s q' := by
  have hn : 1 ≤ s.length := List.length_pos.mpr hne
  have hn1 : (0 : ℚ) ≤ (s.length : ℚ) - 1 := by
    have : (1 : ℚ) ≤ (s.length : ℚ) := by exact_mod_cast hn
    linarith
  unfold percentileSorted
  apply interpAt_mono hs hne
  · positivity
  · apply div_le_div_of_nonneg_right ?_ (by norm_num)
    exact mul_le_mul_of_nonneg_right hqq hn1
  · rw [div_le_iff₀ (by norm_num : (0 : ℚ) < 100)]
    nlinarith

lemma medianSorted_eq_percentileSorted (s : List ℚ) (hne : s ≠ []) :
    medianSorted s = percentileSorted s 50 := by
  have hn : 1 ≤ s.length := List.length_pos.mpr hne
  unfold medianSorted percentileSorted interpAt
  rcases Nat.even_or_odd s.length with ⟨m, hm⟩ | ⟨m, hm⟩
  · -- even length: s.length = m + m, m ≥ 1
    have hm1 : 1 ≤ m := by omega
    have hh : (50 : ℚ) * ((s.length : ℚ) - 1) / 100 = (m : ℚ) - 1/2 := by
      rw [hm]; push_cast; ring
    have hfloor : ⌊(50 : ℚ) * ((s.length : ℚ) - 1) / 100⌋ = (m : ℤ) - 1 := by
      rw [hh, Int.floor_eq_iff]
      refine ⟨by push_cast; linarith, by push_cast; linarith⟩
    have htoNat : ⌊(50 : ℚ) * ((s.length : ℚ) - 1) / 100⌋.toNat = m - 1 := by
      rw [hfloor]; omega
    have hmod : ¬ s.length % 2 = 1 := by omega
    have hdiv : s.length / 2 = m := by omega
    have hmn : m < s.length := by omega
    have hm1n : m - 1 < s.length := by omega
    rw [if_neg hmod, hdiv, htoNat, hh]
    dsimp only
    have hsucc : m - 1 + 1 = m := by omega
    rw [hsucc]
    rw [getD_eq_getElem s (m - 1) 0 hm1n, getD_eq_getElem s m 0 hmn]
    rw [getD_eq_getElem s m _ hmn]
    have hcastm : ((m - 1 : ℕ) : ℚ) = (m : ℚ) - 1 := by
      push_cast [hm1]; ring
    rw [hcastm]
    ring
  · -- odd length: s.length = 2 * m + 1
    have hh : (50 : ℚ) * ((s.length : ℚ) - 1) / 100 = (m : ℚ) := by
      rw [hm]; push_cast; ring
    have hfloor : ⌊(50 : ℚ) * ((s.length : ℚ) - 1) / 100⌋ = (m : ℤ) := by
      rw [hh]; exact Int.floor_natCast m
    have htoNat : ⌊(50 : ℚ) * ((s.length : ℚ) - 1) / 100⌋.toNat = m := by
      rw [hfloor]; omega
    have hmod : s.length % 2 = 1 := by omega
    have hdiv : s.length / 2 = m := by omega
    rw [if_pos hmod, hdiv, htoNat, hh]
    dsimp only
    ring

lemma computeStats_ok (data : List ℚ) (hne : data ≠ []) :
    computeStats data = .ok (statsOfData data) := by
  cases data with
  | nil => exact absurd rfl hne
  | cons x xs => rfl

lemma npMedian_between (data : List ℚ) (hne : data ≠ []) :
    npPercentile data 25 ≤ npMedian data ∧ npMedian data ≤ npPercentile data 75 := by
  have hs : (data.insertionSort (· ≤ ·)).Sorted (· ≤ ·) := data.sorted_insertionSort _
  have hlen : (data.insertionSort (· ≤ ·)).length = data.length := data.length_insertionSort _
  have hsne : data.insertionSort (· ≤ ·) ≠ [] := by
    intro h
    apply hne
    have h2 := congrArg List.length h
    rw [hlen] at h2
    exact List.length_eq_zero.mp h2
  unfold npPercentile npMedian
  rw [medianSorted_eq_percentileSorted _ hsne]
  exact ⟨percentileSorted_mono hs hsne (by norm_num) (by norm_num) (by norm_num),
    percentileSorted_mono hs hsne (by norm_num) (by norm_num) (by norm_num)⟩

lemma dictGet_map_pair {β : Type} (g : MKey → β) :
    ∀ (keys : List MKey) (k : MKey), k ∈ keys →
      dictGet (keys.map (fun k => (k, g k))) k = some (g k) := by
  intro keys
  induction keys with
  | nil => intro k h; simp at h
  | cons k0 ks ih =>
    intro k hk
    by_cases h : k0 = k
    · simp [dictGet, h]
    · simp only [List.map_cons, dictGet, if_neg h]
      rcases List.mem_cons.mp hk with rfl | hk'
      · exact absurd rfl h
      · exact ih k hk'

/-! ## Claim C9: the per-key statistics -/

/-- C9: for a non-empty record list (records carrying the first
record's keys, each key with at least one non-NaN value so the
statistics exist at all — the all-NaN case is C4), `statistics_margins`
returns one entry per key of the first record, computed over exactly
the non-NaN values of that key across all records: min/max are the
Python fold min/max of that list, mean its arithmetic mean, median
`np.median` of it, the squared stddev (`np.std` squared, i.e. the
population variance) is the mean squared deviation from that mean, and
IQR is `np.percentile(·, 75) - np.percentile(·, 25)` with the
linear-interpolation convention; moreover the 25th percentile is at
most the median, which is at most the 75th percentile. -/
theorem claim9_statistics_over_non_nan_values
    (first : MarginRecord) (rest : List MarginRecord)
    (hcov : ∀ rec ∈ first :: rest, ∀ k ∈ first.map Prod.fst, (dictGet rec k).isSome)
    (hne : ∀ k ∈ first.map Prod.fst, nonNaNValues (first :: rest) k ≠ []) :
    ∃ l, statistics_margins (first :: rest) = .ok (some l) ∧
      ∀ k ∈ first.map Prod.fst, ∃ s : MarginStats,
        dictGet l k = some s ∧
        (∃ x xs, nonNaNValues (first :: rest) k = x :: xs ∧
          s.min = pyFoldMin x xs ∧ s.max = pyFoldMax x xs ∧
          s.mean = (x :: xs).sum / ((x :: xs).length : ℚ) ∧
          s.sqStddev = ((x :: xs).map
            (fun v => (v - (x :: xs).sum / ((x :: xs).length : ℚ)) ^ 2)).sum /
              ((x :: xs).length : ℚ)) ∧
        s.median = npMedian (nonNaNValues (first :: rest) k) ∧
        s.iqr = npPercentile (nonNaNValues (first :: rest) k) 75 -
          npPercentile (nonNaNValues (first :: rest) k) 25 ∧
        npPercentile (nonNaNValues (first :: rest) k) 25 ≤ s.median ∧
        s.median ≤ npPercentile (nonNaNValues (first :: rest) k) 75 := by
  have hkey : ∀ k ∈ first.map Prod.fst,
      (fun key => do
        let data ← collectValues (first :: rest) key
        let s ← computeStats data
        pure (key, s)) k =
        Except.ok (k, statsOfData (nonNaNValues (first :: rest) k)) := by
    intro k hk
    have hcv := collectValues_eq_nonNaN k (first :: rest)
      (fun rec hrec => hcov rec hrec k hk)
    have hcs := computeStats_ok _ (hne k hk)
    simp only [bind, Except.bind, hcv, hcs, pure, Except.pure]
  have hmapM := mapM_ok_of_all _
    (fun k => (k, statsOfData (nonNaNValues (first :: rest) k)))
    (first.map Prod.fst) hkey
  refine ⟨(first.map Prod.fst).map
    (fun k => (k, statsOfData (nonNaNValues (first :: rest) k))), ?_, ?_⟩
  · simp only [statistics_margins, hmapM]
    rfl
  · intro k hk
    refine ⟨statsOfData (nonNaNValues (first :: rest) k),
      dictGet_map_pair _ (first.map Prod.fst) k hk, ?_, ?_, ?_, ?_, ?_⟩
    · obtain ⟨x, xs, hx⟩ : ∃ x xs, nonNaNValues (first :: rest) k = x :: xs := by
        cases hd : nonNaNValues (first :: rest) k with
        | nil => exact absurd hd (hne k hk)
        | cons x xs => exact ⟨x, xs, rfl⟩
      exact ⟨x, xs, hx, by rw [hx]; rfl, by rw [hx]; rfl, by rw [hx]; rfl,
        by rw [hx]; rfl⟩
    · cases hd : nonNaNValues (first :: rest) k with
      | nil => exact absurd hd (hne k hk)
      | cons x xs => rfl
    · cases hd : nonNaNValues (first :: rest) k with
      | nil => exact absurd hd (hne k hk)
      | cons x xs => rfl
    · have hb := (npMedian_between _ (hne k hk)).1
      have hmed : (statsOfData (nonNaNValues (first :: rest) k)).median =
          npMedian (nonNaNValues (first :: rest) k) := by
        cases hd : nonNaNValues (first :: rest) k with
        | nil => exact absurd hd (hne k hk)
        | cons x xs => rfl
      rw [hmed]
      exact hb
    · have hb := (npMedian_between _ (hne k hk)).2
      have hmed : (statsOfData (nonNaNValues (first :: rest) k)).median =
          npMedian (nonNaNValues (first :: rest) k) := by
        cases hd : nonNaNValues (first :: rest) k with
        | nil => exact absurd hd (hne k hk)
        | cons x xs => rfl
      rw [hmed]
      exact hb

/-- Witness for C9 on two records with keys `left, top`. -/
theorem claim9_witness :
    (∀ rec ∈ [[(MKey.left, some ((1 : ℚ)/10)), (MKey.top, some (3/25))],
        [(MKey.left, some ((1 : ℚ)/5)), (MKey.top, some (3/25))]],
      ∀ k ∈ [(MKey.left, some ((1 : ℚ)/10)), (MKey.top, some (3/25))].map Prod.fst,
        (dictGet rec k).isSome) ∧
    (∀ k ∈ [(MKey.left, some ((1 : ℚ)/10)), (MKey.top, some (3/25))].map Prod.fst,
      nonNaNValues [[(MKey.left, some ((1 : ℚ)/10)), (MKey.top, some (3/25))],
        [(MKey.left, some ((1 : ℚ)/5)), (MKey.top, some (3/25))]] k ≠ []) ∧
    (∃ l, statistics_margins [[(MKey.left, some ((1 : ℚ)/10)), (MKey.top, some (3/25))],
        [(MKey.left, some ((1 : ℚ)/5)), (MKey.top, some (3/25))]] = .ok (some l) ∧
      ∀ k ∈ [(MKey.left, some ((1 : ℚ)/10)), (MKey.top, some (3/25))].map Prod.fst,
        ∃ s : MarginStats,
        dictGet l k = some s ∧
        (∃ x xs, nonNaNValues [[(MKey.left, some ((1 : ℚ)/10)), (MKey.top, some (3/25))],
            [(MKey.left, some ((1 : ℚ)/5)), (MKey.top, some (3/25))]] k = x :: xs ∧
          s.min = pyFoldMin x xs ∧ s.max = pyFoldMax x xs ∧
          s.mean = (x :: xs).sum / ((x :: xs).length : ℚ) ∧
          s.sqStddev = ((x :: xs).map
            (fun v => (v - (x :: xs).sum / ((x :: xs).length : ℚ)) ^ 2)).sum /
              ((x :: xs).length : ℚ)) ∧
        s.median = npMedian (nonNaNValues [[(MKey.left, some ((1 : ℚ)/10)), (MKey.top, some (3/25))],
          [(MKey.left, some ((1 : ℚ)/5)), (MKey.top, some (3/25))]] k) ∧
        s.iqr = npPercentile (nonNaNValues [[(MKey.left, some ((1 : ℚ)/10)), (MKey.top, some (3/25))],
            [(MKey.left, some ((1 : ℚ)/5)), (MKey.top, some (3/25))]] k) 75 -
          npPercentile (nonNaNValues [[(MKey.left, some ((1 : ℚ)/10)), (MKey.top, some (3/25))],
            [(MKey.left, some ((1 : ℚ)/5)), (MKey.top, some (3/25))]] k) 25 ∧
        npPercentile (nonNaNValues [[(MKey.left, some ((1 : ℚ)/10)), (MKey.top, some (3/25))],
            [(MKey.left, some ((1 : ℚ)/5)), (MKey.top, some (3/25))]] k) 25 ≤ s.median ∧
        s.median ≤ npPercentile (nonNaNValues [[(MKey.left, some ((1 : ℚ)/10)), (MKey.top, some (3/25))],
            [(MKey.left, some ((1 : ℚ)/5)), (MKey.top, some (3/25))]] k) 75) :=
  ⟨by
      intro rec hrec k hkm
      simp only [List.mem_cons, List.not_mem_nil, or_false] at hrec
      simp only [List.map_cons, List.map_nil, List.mem_cons, List.not_mem_nil,
        or_false] at hkm
      rcases hrec with rfl | rfl <;> rcases hkm with rfl | rfl <;> rfl,
    by
      intro k hkm
      simp only [List.map_cons, List.map_nil, List.mem_cons, List.not_mem_nil,
        or_false] at hkm
      rcases hkm with rfl | rfl <;> simp [nonNaNValues, dictGet],
    claim9_statistics_over_non_nan_values
      [(MKey.left, some ((1 : ℚ)/10)), (MKey.top, some (3/25))]
      [[(MKey.left, some ((1 : ℚ)/5)), (MKey.top, some (3/25))]]
      (by
        intro rec hrec k hkm
        simp only [List.mem_cons, List.not_mem_nil, or_false] at hrec
        simp only [List.map_cons, List.map_nil, List.mem_cons, List.not_mem_nil,
          or_false] at hkm
        rcases hrec with rfl | rfl <;> rcases hkm with rfl | rfl <;> rfl)
      (by
        intro k hkm
        simp only [List.map_cons, List.map_nil, List.mem_cons, List.not_mem_nil,
          or_false] at hkm
        rcases hkm with rfl | rfl <;> simp [nonNaNValues, dictGet])⟩

end PdfMarginAnalyzer
